import Mathlib

/-!
# jsonapi: the document model and the decode engine

A shallow embedding of `document.go`, `unmarshal.go` and `resource.go`.

* Go byte slices are lists of bytes; a nil-able slice or pointer is an `Option`.
* A Go `error` value is represented by its message.
* `encoding/json` is an external library: the decoders and struct encoders the
  package calls are fields of `JSONLib`; what the library does with slices and
  nil pointers on the encode side is written out.
* A caller-supplied resource type is seen through the capabilities the package
  probes by reflection and type assertion (`GoType`).
* A slice is its elements plus its spare capacity, and the collection loop keeps
  track of whether the working slice still lives in the caller's backing array,
  because `targetValue.Index(i).Addr()` points into that array.
-/

namespace jsonapi

/-! ## Bytes and errors -/

/-- One byte of a Go byte slice. -/
abbrev Byte := Fin 256

/-- A Go byte slice. -/
abbrev Bytes := List Byte

/-- A Go error value, identified by its message. -/
abbrev GoError := String

/-- The function bytes.HasPrefix of the Go standard library. -/
def startsWith (s pre : Bytes) : Bool := pre.isPrefixOf s

/-- The four JSON whitespace bytes: space, tab, line feed, carriage return. -/
def isJSONSpace (b : Byte) : Bool := b = 0x20 || b = 0x09 || b = 0x0a || b = 0x0d

/-! ## document.go: the data model -/

/-- Links is general links struct for top level and relationships. -/
structure Links where
  Self : String
  Related : String
  First : String
  Previous : String
  Next : String
  Last : String
deriving DecidableEq, Repr

/-- RelationshipData represents one specific reference ID. -/
structure RelationshipData where
  Type_ : String
  ID : String
deriving DecidableEq, Repr

/-- RelationshipDataContainer keeps relationship data as array or object. -/
structure RelationshipDataContainer where
  DataObject : Option RelationshipData
  DataArray : Option (List RelationshipData)
deriving DecidableEq, Repr

/-- Relationship contains reference IDs to the related structs. The free-form
meta mapping is kept as a list of keys with raw JSON values. -/
structure Relationship where
  Links : Option Links
  Data : Option RelationshipDataContainer
  Meta : Option (List (String × Bytes))
deriving DecidableEq, Repr

/-- Data for top level and included data. Attributes is a json.RawMessage:
absent (nil) or the undecoded bytes. -/
structure Data where
  Type_ : String
  ID : String
  Attributes : Option Bytes
  Relationships : Option (List (String × Relationship))
  Links : Option Links
deriving DecidableEq, Repr

/-- DataContainer holds the slice or non-slice value of the data member. -/
structure DataContainer where
  DataObject : Option Data
  DataArray : Option (List Data)
deriving DecidableEq, Repr

/-- ErrorLinks of error.go. -/
structure ErrorLinks where
  About : String
deriving DecidableEq, Repr

/-- ErrorSource of error.go. -/
structure ErrorSource where
  Pointer : String
  Parameter : String
deriving DecidableEq, Repr

/-- Error is the error object of error.go; its free-form meta is raw JSON. -/
structure Error where
  ID : String
  Links : Option ErrorLinks
  Status : String
  Code : String
  Title : String
  Detail : String
  Source : Option ErrorSource
  Meta : Option Bytes
deriving DecidableEq, Repr

/-- Document is the top level JSON object. -/
structure Document where
  Links : Option Links
  Included : Option (List Data)
  Data : Option DataContainer
  Errors : Option (List Error)
  Meta : Option (List (String × Bytes))
deriving DecidableEq, Repr

/-! ## encoding/json as the package uses it -/

/-- The calls into encoding/json whose result depends on the library's parser
and on struct tags. A decoder gets the payload and the current value of the
destination and returns the destination's new value with the error (Go's
decoder may have written to the destination before it fails). -/
structure JSONLib where
  /-- Call json.Unmarshal(data, doc) for a fresh Document -/
  unmarshalDocument : Bytes → Except GoError Document
  /-- Call json.Unmarshal(payload, &c.DataObject) for a DataContainer -/
  unmarshalData : Bytes → Option Data → Option Data × Option GoError
  /-- Call json.Unmarshal(payload, &c.DataArray) for a DataContainer -/
  unmarshalDataArray : Bytes → Option (List Data) → Option (List Data) × Option GoError
  /-- Call json.Unmarshal(payload, &c.DataObject) for a RelationshipDataContainer -/
  unmarshalRelData : Bytes → Option RelationshipData → Option RelationshipData × Option GoError
  /-- Call json.Unmarshal(payload, &c.DataArray) for a RelationshipDataContainer -/
  unmarshalRelDataArray :
    Bytes → Option (List RelationshipData) → Option (List RelationshipData) × Option GoError
  /-- The JSON text json.Marshal produces for one Data struct -/
  encodeData : Data → Except GoError Bytes
  /-- The JSON text json.Marshal produces for one RelationshipData struct -/
  encodeRelData : RelationshipData → Except GoError Bytes

/-- The bytes of the JSON literal null. -/
def jsonNull : Bytes := [0x6e, 0x75, 0x6c, 0x6c]

/-- The text json.Marshal writes for a list of already encoded elements: an
opening bracket, the elements separated by commas, a closing bracket. -/
def jsonArray (parts : List Bytes) : Bytes :=
  [0x5b] ++ List.intercalate [0x2c] parts ++ [0x5d]

/-- What json.Marshal does with a slice (or a pointer to one): a nil slice is
null, any other slice is the array of its encoded elements; the first element
that fails to encode fails the call. -/
def jsonMarshalSlice {α : Type} (enc : α → Except GoError Bytes) :
    Option (List α) → Except GoError Bytes
  | none => .ok jsonNull
  | some xs => (xs.mapM enc).map jsonArray

/-- What json.Marshal does with a pointer to a struct (or a pointer to such a
pointer): nil is null, otherwise the struct is encoded. -/
def jsonMarshalPtr {α : Type} (enc : α → Except GoError Bytes) :
    Option α → Except GoError Bytes
  | none => .ok jsonNull
  | some x => enc x

/-! ## document.go: the union containers -/

/-- DataContainer.UnmarshalJSON: the container after the call and the error. -/
def DataContainer.UnmarshalJSON (J : JSONLib) (c : DataContainer) (payload : Bytes) :
    DataContainer × Option GoError :=
  if startsWith payload [0x7b] then
    let r := J.unmarshalData payload c.DataObject
    ({ c with DataObject := r.1 }, r.2)
  else if startsWith payload [0x5b] then
    let r := J.unmarshalDataArray payload c.DataArray
    ({ c with DataArray := r.1 }, r.2)
  else
    (c, some "Invalid json for data array/object")

/-- DataContainer.MarshalJSON. -/
def DataContainer.MarshalJSON (J : JSONLib) (c : DataContainer) : Except GoError Bytes :=
  if c.DataArray ≠ none then
    jsonMarshalSlice J.encodeData c.DataArray
  else
    jsonMarshalPtr J.encodeData c.DataObject

/-- RelationshipDataContainer.UnmarshalJSON. -/
def RelationshipDataContainer.UnmarshalJSON (J : JSONLib) (c : RelationshipDataContainer)
    (payload : Bytes) : RelationshipDataContainer × Option GoError :=
  if startsWith payload [0x7b] then
    let r := J.unmarshalRelData payload c.DataObject
    ({ c with DataObject := r.1 }, r.2)
  else if startsWith payload [0x5b] then
    let r := J.unmarshalRelDataArray payload c.DataArray
    ({ c with DataArray := r.1 }, r.2)
  else
    (c, some "Invalid JSON for relationship data array/object")

/-- RelationshipDataContainer.MarshalJSON. -/
def RelationshipDataContainer.MarshalJSON (J : JSONLib) (c : RelationshipDataContainer) :
    Except GoError Bytes :=
  if c.DataArray ≠ none then
    jsonMarshalSlice J.encodeRelData c.DataArray
  else
    jsonMarshalPtr J.encodeRelData c.DataObject

/-! ## resource.go: what the package can see of a caller's type -/

/-- A Go type T with values in α, as the package observes it.
The methods are the caller's code; they are taken as functions on the value. -/
structure GoType (α : Type) where
  /-- The text reflect.Type prints for T -/
  name : String
  /-- The zero value reflect.New(T) points to -/
  zero : α
  /-- SetID of T behind a pointer, when a pointer to T satisfies UnmarshalIdentifier:
  the value after the call and the returned error -/
  SetID : Option (String → α → α × Option GoError)
  /-- GetID of a value of T, when that value satisfies ResourceGetIdentifier -/
  GetID : α → Option String
  /-- Modelled from the spec: getStructType, called by checkType, is declared in a
  file of the package that is not available; the spec says it extracts the expected
  type name through the resource contract and fails when the target does not expose
  it. It is taken as a function of the target giving the name or the error -/
  getStructType : α → Except GoError String
  /-- Call json.Unmarshal(attributes, target) for a pointer to T: the value after the
  call and the error -/
  jsonUnmarshal : Bytes → α → α × Option GoError
  /-- Spare capacity the runtime leaves when it moves a full slice of T to a new
  backing array that holds the given number of elements -/
  growSpare : Nat → Nat

/-- A slice value: its elements and the capacity left after them. -/
structure Slice (ε : Type) where
  elems : List ε
  spare : Nat
deriving DecidableEq, Repr

/-- What a pointer target points to: a value that is not of slice kind, or a slice. -/
inductive Pointee (α ε : Type) where
  | obj (v : α)
  | slice (s : Slice ε)
deriving DecidableEq, Repr

/-- The target argument of Unmarshal: the nil interface, a value that is not a
pointer, or a pointer to a variable of the caller. -/
inductive Target (α ε : Type) where
  | nil
  | value
  | ptr (p : Pointee α ε)
deriving DecidableEq, Repr

/-- The types reflection finds behind a pointer target: T for a pointee that is not
a slice, S for a pointee of slice kind and E for the elements of S. -/
structure TargetTypes (α ε : Type) where
  T : GoType α
  S : GoType (Slice ε)
  E : GoType ε

/-! ## unmarshal.go -/

/-- ErrInterface occurs if the target struct did not implement the
UnmarshalIdentifier interface. -/
def ErrInterface : GoError := "target must implement UnmarshalIdentifier interface"

/-- ErrNoType occurs if the JSON payload did not have a type field. -/
def ErrNoType : GoError := "invalid record, no type was specified"

/-- The error of the inner scan of Unmarshal. -/
def errNoGetID : GoError := "existing structs must satisfy interface ResourceGetIdentifier"

/-- The function checkType: nil (none) or the error. -/
def checkType {α : Type} (T : GoType α) (incomingType : String) (target : α) :
    Option GoError :=
  match T.getStructType target with
  | .error err => some err
  | .ok actualType =>
    if incomingType ≠ actualType then
      some ("Type " ++ incomingType ++ " in JSON does not match target struct type "
        ++ actualType)
    else
      none

/-- The function setDataIntoTarget: the target after the call and the error. -/
def setDataIntoTarget {α : Type} (T : GoType α) (data : Data) (target : α) :
    α × Option GoError :=
  match T.SetID with
  | none => (target, some ErrInterface)
  | some setID =>
    if data.Type_ = "" then (target, some ErrNoType)
    else
      match checkType T data.Type_ target with
      | some err => (target, some err)
      | none =>
        match data.Attributes with
        | some attrs =>
          match T.jsonUnmarshal attrs target with
          | (t, some err) => (t, some err)
          | (t, none) => setID data.ID t
        | none => setID data.ID target

/-- The inner loop of Unmarshal over the working slice: the index of the first
element whose GetID equals the record id, none when the scan reaches the end, or
the error when an element reached before that does not satisfy
ResourceGetIdentifier. -/
def scan {ε : Type} (E : GoType ε) (id : String) : List ε → Except GoError (Option Nat)
  | [] => .ok none
  | x :: xs =>
    match E.GetID x with
    | none => .error errNoGetID
    | some g =>
      if id = g then .ok (some 0)
      else
        match scan E id xs with
        | .error e => .error e
        | .ok r => .ok (r.map (· + 1))

/-- The state of the collection loop. The field caller holds the elements seen
through the caller's slice, value the elements of targetValue, spare the capacity
left in targetValue, and shared tells whether targetValue still lives in the
caller's backing array. -/
structure Work (ε : Type) where
  caller : List ε
  value : List ε
  spare : Nat
  shared : Bool
deriving DecidableEq, Repr

/-- The call reflect.Append(targetValue, x): within capacity the element goes
into the same backing array, otherwise the slice moves to a new one. -/
def Work.append {ε : Type} (E : GoType ε) (w : Work ε) (x : ε) : Work ε :=
  if 0 < w.spare then
    { w with value := w.value ++ [x], spare := w.spare - 1 }
  else
    { w with value := w.value ++ [x], spare := E.growSpare (w.value.length + 1),
             shared := false }

/-- One iteration of the loop over doc.Data.DataArray. A matched element is
decoded through a pointer into the backing array of targetValue, so the write is
seen through the caller's slice while the array is shared and the index is below
the caller's length. The index the scan returns is always within the slice
(scan_some_spec), so the branch without an element is never taken. -/
def step {ε : Type} (E : GoType ε) (w : Work ε) (record : Data) : Work ε × Option GoError :=
  match scan E record.ID w.value with
  | .error e => (w, some e)
  | .ok (some i) =>
    match w.value[i]? with
    | none => (w, none)
    | some x =>
      let r := setDataIntoTarget E record x
      ({ w with value := w.value.set i r.1,
                caller := if w.shared then w.caller.set i r.1 else w.caller }, r.2)
  | .ok none =>
    match setDataIntoTarget E record E.zero with
    | (_, some err) => (w, some err)
    | (x, none) => (w.append E x, none)

/-- The loop over doc.Data.DataArray, left at the first error. -/
def loop {ε : Type} (E : GoType ε) : Work ε → List Data → Work ε × Option GoError
  | w, [] => (w, none)
  | w, record :: rest =>
    match step E w record with
    | (w1, some err) => (w1, some err)
    | (w1, none) => loop E w1 rest

/-- The array branch of Unmarshal for a pointer to a slice: the caller's slice
after the call and the error. The final Set is reached only without an error. -/
def unmarshalArray {ε : Type} (E : GoType ε) (s : Slice ε) (records : List Data) :
    Slice ε × Option GoError :=
  match loop E { caller := s.elems, value := s.elems, spare := s.spare, shared := true }
      records with
  | (w, some err) => ({ elems := w.caller, spare := s.spare }, some err)
  | (w, none) => ({ elems := w.value, spare := w.spare }, none)

/-- The function Unmarshal: the target after the call and the error. -/
def Unmarshal {α ε : Type} (J : JSONLib) (R : TargetTypes α ε) (data : Bytes) :
    Target α ε → Target α ε × Option GoError
  | .nil => (.nil, some "target must not be nil")
  | .value => (.value, some "target must be a ptr")
  | .ptr p =>
    match J.unmarshalDocument data with
    | .error err => (.ptr p, some err)
    | .ok doc =>
      match doc.Data with
      | none =>
        (.ptr p, some "Source JSON is empty and does not satisfy the JSONAPI specification!")
      | some c =>
        match c.DataObject with
        | some d =>
          match p with
          | .obj v =>
            let r := setDataIntoTarget R.T d v
            (.ptr (.obj r.1), r.2)
          | .slice s =>
            let r := setDataIntoTarget R.S d s
            (.ptr (.slice r.1), r.2)
        | none =>
          match c.DataArray with
          | none => (.ptr p, none)
          | some records =>
            match p with
            | .obj _ =>
              (.ptr p, some ("Cannot unmarshal array to struct target " ++ R.T.name))
            | .slice s =>
              let r := unmarshalArray R.E s records
              (.ptr (.slice r.1), r.2)

/-! ## Notions used to state what the collection loop computes -/

/-- The target after the records of a list have been decoded into it one after
the other by setDataIntoTarget. -/
def applyAll {ε : Type} (E : GoType ε) (x : ε) (records : List Data) : ε :=
  records.foldl (fun a r => (setDataIntoTarget E r a).1) x

/-- The identifiers by position after a run over the records: the GetID results
of the elements of the old collection, followed by every record id that is not
yet in the list, in the order of arrival. -/
def slotIDs {ε : Type} (E : GoType ε) (old : List ε) (records : List Data) :
    List (Option String) :=
  records.foldl (fun K r => if some r.ID ∈ K then K else K ++ [some r.ID]) (old.map E.GetID)

/-- The index of the first entry that holds the identifier, or the length of the
list when no entry does. -/
def slotOf (id : String) : List (Option String) → Nat
  | [] => 0
  | k :: ks => if k = some id then 0 else slotOf id ks + 1

/-! ## Concrete resource types and a concrete library, used to evaluate the code -/

/-- A resource with an identifier and one attribute; it follows the fixture
Manbearpig of the test utilities (ID is not a JSON field, Moo is). -/
structure Pig where
  ID : String
  Moo : Bytes
deriving DecidableEq, Repr

/-- Manbearpig: SetID stores the identifier, GetID returns it, GetName is
manbearpigs. Its attribute decoder stands in for json.Unmarshal on the struct:
an empty payload is a syntax error, any other payload is stored in Moo. -/
def pigType : GoType Pig where
  name := "testutils.Manbearpig"
  zero := { ID := "", Moo := [] }
  SetID := some fun id p => ({ p with ID := id }, none)
  GetID := fun p => some p.ID
  getStructType := fun _ => .ok "manbearpigs"
  jsonUnmarshal := fun attrs p =>
    if attrs = [] then (p, some "unexpected end of JSON input") else ({ p with Moo := attrs }, none)
  growSpare := fun _ => 0

/-- FisherBoy of the test utilities: no SetID, no GetID, no GetName. -/
def fisherType : GoType Pig where
  name := "testutils.FisherBoy"
  zero := { ID := "", Moo := [] }
  SetID := none
  GetID := fun _ => none
  getStructType := fun _ => .error "target must implement ResourceTyper interface"
  jsonUnmarshal := fun attrs p =>
    if attrs = [] then (p, some "unexpected end of JSON input") else ({ p with Moo := attrs }, none)
  growSpare := fun _ => 0

/-- A resource type whose identifier is fixed at construction: its SetID accepts
any identifier, returns nil and leaves the value as it is. -/
def frozenType : GoType Pig where
  name := "testutils.Frozen"
  zero := { ID := "", Moo := [] }
  SetID := some fun _ p => (p, none)
  GetID := fun p => some p.ID
  getStructType := fun _ => .ok "manbearpigs"
  jsonUnmarshal := fun attrs p =>
    if attrs = [] then (p, some "unexpected end of JSON input") else ({ p with Moo := attrs }, none)
  growSpare := fun _ => 0

/-- A slice type without methods of its own. -/
def plainSliceType : GoType (Slice Pig) where
  name := "[]testutils.Manbearpig"
  zero := { elems := [], spare := 0 }
  SetID := none
  GetID := fun _ => none
  getStructType := fun _ => .error "target must implement ResourceTyper interface"
  jsonUnmarshal := fun _ s => (s, none)
  growSpare := fun _ => 0

/-- The types behind a pointer to Manbearpig or to a slice of Manbearpig. -/
def pigTypes : TargetTypes Pig Pig := { T := pigType, S := plainSliceType, E := pigType }

/-- A record without attributes, relationships and links. -/
def bareRecord (type id : String) : Data :=
  { Type_ := type, ID := id, Attributes := none, Relationships := none, Links := none }

/-- A record with an attributes payload. -/
def attrRecord (type id : String) (attrs : Bytes) : Data :=
  { Type_ := type, ID := id, Attributes := some attrs, Relationships := none, Links := none }

/-- A document that has only the data member. -/
def dataDocument (c : DataContainer) : Document :=
  { Links := none, Included := none, Data := some c, Errors := none, Meta := none }

/-- A library instance for the examples. Its document parser knows the listed
payloads and reports a syntax error for any other; its container decoders accept
the two-byte texts of the empty object and the empty array. -/
def tableJSON (docs : List (Bytes × Document)) : JSONLib where
  unmarshalDocument := fun data =>
    match docs.lookup data with
    | some doc => .ok doc
    | none => .error "unexpected end of JSON input"
  unmarshalData := fun payload cur =>
    if payload = [0x7b, 0x7d] then (some (cur.getD (bareRecord "" "")), none)
    else (cur, some "unexpected end of JSON input")
  unmarshalDataArray := fun payload cur =>
    if payload = [0x5b, 0x5d] then (some [], none)
    else (cur, some "unexpected end of JSON input")
  unmarshalRelData := fun payload cur =>
    if payload = [0x7b, 0x7d] then (some (cur.getD { Type_ := "", ID := "" }), none)
    else (cur, some "unexpected end of JSON input")
  unmarshalRelDataArray := fun payload cur =>
    if payload = [0x5b, 0x5d] then (some [], none)
    else (cur, some "unexpected end of JSON input")
  encodeData := fun _ => .ok [0x7b, 0x7d]
  encodeRelData := fun _ => .ok [0x7b, 0x7d]

/-- The attributes payload with moo set to x, as bytes. -/
def mooX : Bytes :=
  [0x7b, 0x22, 0x6d, 0x6f, 0x6f, 0x22, 0x3a, 0x22, 0x78, 0x22, 0x7d]

/-- The attributes payload with moo set to y, as bytes. -/
def mooY : Bytes :=
  [0x7b, 0x22, 0x6d, 0x6f, 0x6f, 0x22, 0x3a, 0x22, 0x79, 0x22, 0x7d]

/-- A document with one record of type manbearpigs, id 9 and the attributes
mooX under the data member, as bytes. -/
def singlePayload : Bytes :=
  [0x7b, 0x22, 0x64, 0x61, 0x74, 0x61, 0x22, 0x3a, 0x7b, 0x22, 0x69, 0x64, 0x22, 0x3a, 0x22,
    0x39, 0x22, 0x2c, 0x22, 0x74, 0x79, 0x70, 0x65, 0x22, 0x3a, 0x22, 0x6d, 0x61, 0x6e, 0x62,
    0x65, 0x61, 0x72, 0x70, 0x69, 0x67, 0x73, 0x22, 0x2c, 0x22, 0x61, 0x74, 0x74, 0x72, 0x69,
    0x62, 0x75, 0x74, 0x65, 0x73, 0x22, 0x3a, 0x7b, 0x22, 0x6d, 0x6f, 0x6f, 0x22, 0x3a, 0x22,
    0x78, 0x22, 0x7d, 0x7d, 0x7d]

/-- The record of singlePayload. -/
def singleRecord : Data := attrRecord "manbearpigs" "9" mooX

/-- A document whose data member is an array of two records: the first of type
manbearpigs with id 1 and the attributes mooX, the second with id 2, the
attributes mooY and no type; as bytes. -/
def failingPayload : Bytes :=
  [0x7b, 0x22, 0x64, 0x61, 0x74, 0x61, 0x22, 0x3a, 0x5b, 0x7b, 0x22, 0x69, 0x64, 0x22, 0x3a,
    0x22, 0x31, 0x22, 0x2c, 0x22, 0x74, 0x79, 0x70, 0x65, 0x22, 0x3a, 0x22, 0x6d, 0x61, 0x6e,
    0x62, 0x65, 0x61, 0x72, 0x70, 0x69, 0x67, 0x73, 0x22, 0x2c, 0x22, 0x61, 0x74, 0x74, 0x72,
    0x69, 0x62, 0x75, 0x74, 0x65, 0x73, 0x22, 0x3a, 0x7b, 0x22, 0x6d, 0x6f, 0x6f, 0x22, 0x3a,
    0x22, 0x78, 0x22, 0x7d, 0x7d, 0x2c, 0x7b, 0x22, 0x69, 0x64, 0x22, 0x3a, 0x22, 0x32, 0x22,
    0x2c, 0x22, 0x61, 0x74, 0x74, 0x72, 0x69, 0x62, 0x75, 0x74, 0x65, 0x73, 0x22, 0x3a, 0x7b,
    0x22, 0x6d, 0x6f, 0x6f, 0x22, 0x3a, 0x22, 0x79, 0x22, 0x7d, 0x7d, 0x5d, 0x7d]

/-- The records of failingPayload. -/
def failingRecords : List Data :=
  [attrRecord "manbearpigs" "1" mooX, attrRecord "" "2" mooY]

/-- A document whose data member is an array of two records of type manbearpigs:
the first with id 1 and the attributes mooX, the second without id and with the
attributes mooY; as bytes. -/
def distinctPayload : Bytes :=
  [0x7b, 0x22, 0x64, 0x61, 0x74, 0x61, 0x22, 0x3a, 0x5b, 0x7b, 0x22, 0x69, 0x64, 0x22, 0x3a,
    0x22, 0x31, 0x22, 0x2c, 0x22, 0x74, 0x79, 0x70, 0x65, 0x22, 0x3a, 0x22, 0x6d, 0x61, 0x6e,
    0x62, 0x65, 0x61, 0x72, 0x70, 0x69, 0x67, 0x73, 0x22, 0x2c, 0x22, 0x61, 0x74, 0x74, 0x72,
    0x69, 0x62, 0x75, 0x74, 0x65, 0x73, 0x22, 0x3a, 0x7b, 0x22, 0x6d, 0x6f, 0x6f, 0x22, 0x3a,
    0x22, 0x78, 0x22, 0x7d, 0x7d, 0x2c, 0x7b, 0x22, 0x74, 0x79, 0x70, 0x65, 0x22, 0x3a, 0x22,
    0x6d, 0x61, 0x6e, 0x62, 0x65, 0x61, 0x72, 0x70, 0x69, 0x67, 0x73, 0x22, 0x2c, 0x22, 0x61,
    0x74, 0x74, 0x72, 0x69, 0x62, 0x75, 0x74, 0x65, 0x73, 0x22, 0x3a, 0x7b, 0x22, 0x6d, 0x6f,
    0x6f, 0x22, 0x3a, 0x22, 0x79, 0x22, 0x7d, 0x7d, 0x5d, 0x7d]

/-- The records of distinctPayload. -/
def distinctRecords : List Data :=
  [attrRecord "manbearpigs" "1" mooX, attrRecord "manbearpigs" "" mooY]

/-- A document with one record of type widgets, id 9 and no attributes; as bytes. -/
def widgetPayload : Bytes :=
  [0x7b, 0x22, 0x64, 0x61, 0x74, 0x61, 0x22, 0x3a, 0x7b, 0x22, 0x69, 0x64, 0x22, 0x3a, 0x22,
    0x39, 0x22, 0x2c, 0x22, 0x74, 0x79, 0x70, 0x65, 0x22, 0x3a, 0x22, 0x77, 0x69, 0x64, 0x67,
    0x65, 0x74, 0x73, 0x22, 0x7d, 0x7d]

/-- The library instance of the examples, with the documents above. -/
def exampleJSON : JSONLib :=
  tableJSON
    [(singlePayload, dataDocument { DataObject := some singleRecord, DataArray := none }),
     (failingPayload, dataDocument { DataObject := none, DataArray := some failingRecords }),
     (distinctPayload, dataDocument { DataObject := none, DataArray := some distinctRecords }),
     (widgetPayload,
      dataDocument { DataObject := some (bareRecord "widgets" "9"), DataArray := none })]

/-- The types behind a pointer to the frozen resource or to a slice of it. -/
def frozenTypes : TargetTypes Pig Pig :=
  { T := frozenType, S := plainSliceType, E := frozenType }

/-- A resource with id 1. -/
def pigA : Pig := { ID := "1", Moo := [] }

/-- A resource with id 7. -/
def pigB : Pig := { ID := "7", Moo := [] }

/-! ## Properties of resource types and of the loop state -/

/-- The law of a resource type whose successful SetID makes GetID return the
identifier that was set. -/
def SetIDLaw {ε : Type} (E : GoType ε) : Prop :=
  ∀ f, E.SetID = some f → ∀ id a a1, f id a = (a1, none) → E.GetID a1 = some id

/-- While the working slice shares the caller's backing array, both show the same
elements below the caller's length. -/
def Work.Aliased {ε : Type} (w : Work ε) : Prop :=
  w.shared = true → ∀ i, i < w.caller.length → w.value[i]? = w.caller[i]?

/-! ## error.go -/

/-- Error.GetID: the ID when it is set, otherwise what nuid.Next() returns. The
generator is outside the package and random; the string it returns in this call
is the first argument. -/
def Error.GetID (nuidNext : String) (e : Error) : String :=
  if e.ID ≠ "" then e.ID else nuidNext

/-- Error.GetName. -/
def Error.GetName (_ : Error) : String := "error"

/-- The id member json.Marshal writes for an Error. The struct has no MarshalJSON
method and the field ID carries the tag json:"id" without omitempty, so the
member is always written and holds the field as it is. -/
def Error.encodedID (e : Error) : String := e.ID

/-! ## More concrete inputs -/

/-- A resource type with a lawful SetID whose attribute decoder is its own
UnmarshalJSON: it stores the payload in Moo followed by the characters of the
identifier the value has at that moment. Decoding the same payload twice in a
row gives the same value as decoding it once. -/
def echoType : GoType Pig where
  name := "testutils.Echo"
  zero := { ID := "", Moo := [] }
  SetID := some fun id p => ({ p with ID := id }, none)
  GetID := fun p => some p.ID
  getStructType := fun _ => .ok "manbearpigs"
  jsonUnmarshal := fun attrs p =>
    if attrs = [] then (p, some "unexpected end of JSON input")
    else ({ p with Moo := attrs ++ p.ID.data.map (fun c => Fin.ofNat c.toNat) }, none)
  growSpare := fun _ => 0

/-- The types behind a pointer to the echo resource or to a slice of it. -/
def echoTypes : TargetTypes Pig Pig :=
  { T := echoType, S := plainSliceType, E := echoType }

/-- A document whose data member is an array of two records of type manbearpigs
with the same id 1, the first with the attributes mooX and the second with the
attributes mooY; as bytes. -/
def duplicatePayload : Bytes :=
  [0x7b, 0x22, 0x64, 0x61, 0x74, 0x61, 0x22, 0x3a, 0x5b, 0x7b, 0x22, 0x69, 0x64, 0x22, 0x3a,
    0x22, 0x31, 0x22, 0x2c, 0x22, 0x74, 0x79, 0x70, 0x65, 0x22, 0x3a, 0x22, 0x6d, 0x61, 0x6e,
    0x62, 0x65, 0x61, 0x72, 0x70, 0x69, 0x67, 0x73, 0x22, 0x2c, 0x22, 0x61, 0x74, 0x74, 0x72,
    0x69, 0x62, 0x75, 0x74, 0x65, 0x73, 0x22, 0x3a, 0x7b, 0x22, 0x6d, 0x6f, 0x6f, 0x22, 0x3a,
    0x22, 0x78, 0x22, 0x7d, 0x7d, 0x2c, 0x7b, 0x22, 0x69, 0x64, 0x22, 0x3a, 0x22, 0x31, 0x22,
    0x2c, 0x22, 0x74, 0x79, 0x70, 0x65, 0x22, 0x3a, 0x22, 0x6d, 0x61, 0x6e, 0x62, 0x65, 0x61,
    0x72, 0x70, 0x69, 0x67, 0x73, 0x22, 0x2c, 0x22, 0x61, 0x74, 0x74, 0x72, 0x69, 0x62, 0x75,
    0x74, 0x65, 0x73, 0x22, 0x3a, 0x7b, 0x22, 0x6d, 0x6f, 0x6f, 0x22, 0x3a, 0x22, 0x79, 0x22,
    0x7d, 0x7d, 0x5d, 0x7d]

/-- The records of duplicatePayload. -/
def duplicateRecords : List Data :=
  [attrRecord "manbearpigs" "1" mooX, attrRecord "manbearpigs" "1" mooY]

/-- A document whose data member is an array of one record of type manbearpigs
with id 1 and the attributes mooX; as bytes. -/
def onePayload : Bytes :=
  [0x7b, 0x22, 0x64, 0x61, 0x74, 0x61, 0x22, 0x3a, 0x5b, 0x7b, 0x22, 0x69, 0x64, 0x22, 0x3a,
    0x22, 0x31, 0x22, 0x2c, 0x22, 0x74, 0x79, 0x70, 0x65, 0x22, 0x3a, 0x22, 0x6d, 0x61, 0x6e,
    0x62, 0x65, 0x61, 0x72, 0x70, 0x69, 0x67, 0x73, 0x22, 0x2c, 0x22, 0x61, 0x74, 0x74, 0x72,
    0x69, 0x62, 0x75, 0x74, 0x65, 0x73, 0x22, 0x3a, 0x7b, 0x22, 0x6d, 0x6f, 0x6f, 0x22, 0x3a,
    0x22, 0x78, 0x22, 0x7d, 0x7d, 0x5d, 0x7d]

/-- The records of onePayload. -/
def oneRecords : List Data := [attrRecord "manbearpigs" "1" mooX]

/-- A document whose data member is the empty array; as bytes. -/
def emptyArrayPayload : Bytes :=
  [0x7b, 0x22, 0x64, 0x61, 0x74, 0x61, 0x22, 0x3a, 0x5b, 0x5d, 0x7d]

/-- A document with a member life and no data member, the payload of the test
on the missing data; as bytes. -/
def noDataPayload : Bytes :=
  [0x7b, 0x22, 0x6c, 0x69, 0x66, 0x65, 0x22, 0x3a, 0x20, 0x7b, 0x22, 0x74, 0x79, 0x70, 0x65,
    0x22, 0x3a, 0x22, 0x6d, 0x61, 0x6e, 0x62, 0x65, 0x61, 0x72, 0x70, 0x69, 0x67, 0x73, 0x22,
    0x7d, 0x7d]

/-- A document whose only member is meta with the number 5; as bytes. -/
def metaPayload : Bytes :=
  [0x7b, 0x22, 0x6d, 0x65, 0x74, 0x61, 0x22, 0x3a, 0x35, 0x7d]

/-- A document that lacks its closing brace, the payload of the test on malformed
input; as bytes. -/
def truncatedPayload : Bytes :=
  [0x7b, 0x22, 0x6c, 0x69, 0x66, 0x65, 0x22, 0x3a, 0x20, 0x7b, 0x22, 0x74, 0x79, 0x70, 0x65,
    0x22, 0x3a, 0x22, 0x6d, 0x61, 0x6e, 0x62, 0x65, 0x61, 0x72, 0x70, 0x69, 0x67, 0x22, 0x7d]

/-- A document without any member set. -/
def emptyDocument : Document :=
  { Links := none, Included := none, Data := none, Errors := none, Meta := none }

/-- The types behind a pointer to FisherBoy or to a slice of FisherBoy. -/
def fisherTypes : TargetTypes Pig Pig :=
  { T := fisherType, S := plainSliceType, E := fisherType }

/-- An Error without an identifier. -/
def emptyError : Error :=
  { ID := "", Links := none, Status := "404", Code := "", Title := "Not Found", Detail := "",
    Source := none, Meta := none }

/-- An Error with the identifier e1. -/
def namedError : Error := { emptyError with ID := "e1" }

/-- The documents of the second library instance. -/
def exampleDocs2 : List (Bytes × Document) :=
  [(duplicatePayload, dataDocument { DataObject := none, DataArray := some duplicateRecords }),
   (onePayload, dataDocument { DataObject := none, DataArray := some oneRecords }),
   (emptyArrayPayload, dataDocument { DataObject := none, DataArray := some [] }),
   (noDataPayload, emptyDocument)]

/-- A second library instance. Its document parser knows the payloads above and
answers the payload with the number under meta the way encoding/json does, with
the error for a value that does not fit the field; its record encoder rejects a
raw attributes payload that is present and empty, as json.RawMessage does. -/
def exampleJSON2 : JSONLib :=
  { tableJSON exampleDocs2 with
    unmarshalDocument := fun data =>
      if data = metaPayload then
        .error ("json: cannot unmarshal number into Go struct field Document.meta of type "
          ++ "map[string]interface \x7b\x7d")
      else (tableJSON exampleDocs2).unmarshalDocument data
    encodeData := fun d =>
      if d.Attributes = some [] then
        .error
          "json: error calling MarshalJSON for type json.RawMessage: unexpected end of JSON input"
      else .ok [0x7b, 0x7d] }

/-- A document with one record that has the id 9 and no type; as bytes. -/
def noTypePayload : Bytes :=
  [0x7b, 0x22, 0x64, 0x61, 0x74, 0x61, 0x22, 0x3a, 0x7b, 0x22, 0x69, 0x64, 0x22, 0x3a, 0x22,
    0x39, 0x22, 0x7d, 0x7d]

/-- A third library instance, whose document parser knows noTypePayload. -/
def exampleJSON3 : JSONLib :=
  tableJSON
    [(noTypePayload, dataDocument { DataObject := some (bareRecord "" "9"), DataArray := none })]

/-! ## encoding/json on the Data struct, written out from its tags -/

/-- What the scanner of encoding/json makes of one JSON text: its kind and, one
level down, the texts of its parts. A string comes unquoted. -/
inductive JShape where
  | null
  | bool (b : Bool)
  | number
  | string (s : String)
  | array (elems : List Bytes)
  | object (members : List (String × Bytes))
deriving DecidableEq, Repr

/-- The word encoding/json uses for a kind of JSON value in its type errors. -/
def JShape.kind : JShape → String
  | .null => "null"
  | .bool _ => "bool"
  | .number => "number"
  | .string _ => "string"
  | .array _ => "array"
  | .object _ => "object"

/-- The parts of encoding/json below the Data struct: JSON syntax and the codecs
of the nested types. They are parameters. -/
structure JSONSyntax where
  /-- The scanner: the error for a text that is not valid JSON, or its shape -/
  scan : Bytes → Except GoError JShape
  /-- The string literal the encoder writes for a Go string -/
  quote : String → Bytes
  /-- The text the encoder writes for a json.RawMessage that is not nil: the error
  for bytes that are not valid JSON, or the compacted bytes -/
  compact : Bytes → Except GoError Bytes
  /-- The text of a relationships map that is not empty -/
  encodeRelationships : List (String × Relationship) → Except GoError Bytes
  /-- The decoder of the relationships member into the field, with its error -/
  decodeRelationships : Bytes → Option (List (String × Relationship)) →
    Option (List (String × Relationship)) × Option GoError
  /-- The text of a Links struct -/
  encodeLinks : Links → Bytes
  /-- The decoder of the links member into the field, with its error -/
  decodeLinks : Bytes → Option Links → Option Links × Option GoError
  /-- The comparison of an object key with a field name that ignores case -/
  foldEq : String → String → Bool

/-- The text of a JSON object: the members between braces, separated by commas,
each a quoted key, a colon and the text of the value. -/
def jsonObject (S : JSONSyntax) (members : List (String × Bytes)) : Bytes :=
  [0x7b] ++ List.intercalate [0x2c] (members.map fun m => S.quote m.1 ++ [0x3a] ++ m.2) ++ [0x7d]

/-- The members json.Marshal writes for a Data struct, in the order of the fields
and by their tags: type always, id unless empty (omitempty), attributes always
(null for a nil raw message, otherwise the compacted raw message, whose error
fails the call), relationships unless the map is empty (omitempty), links unless
nil (omitempty). -/
def Data.members (S : JSONSyntax) (d : Data) : Except GoError (List (String × Bytes)) :=
  let head : List (String × Bytes) :=
    [("type", S.quote d.Type_)] ++ (if d.ID = "" then [] else [("id", S.quote d.ID)])
  let links : List (String × Bytes) :=
    match d.Links with
    | none => []
    | some l => [("links", S.encodeLinks l)]
  let attrs : Except GoError Bytes :=
    match d.Attributes with
    | none => .ok jsonNull
    | some raw =>
      match S.compact raw with
      | .ok t => .ok t
      | .error e => .error ("json: error calling MarshalJSON for type json.RawMessage: " ++ e)
  match attrs with
  | .error e => .error e
  | .ok a =>
    match d.Relationships with
    | none => .ok (head ++ [("attributes", a)] ++ links)
    | some [] => .ok (head ++ [("attributes", a)] ++ links)
    | some (r :: rs) =>
      match S.encodeRelationships (r :: rs) with
      | .error e => .error e
      | .ok t => .ok (head ++ [("attributes", a)] ++ [("relationships", t)] ++ links)

/-- The text json.Marshal writes for a Data struct. -/
def encodeRecord (S : JSONSyntax) (d : Data) : Except GoError Bytes :=
  match Data.members S d with
  | .error e => .error e
  | .ok ms => .ok (jsonObject S ms)

/-- The fields of the Data struct. -/
inductive DataField where
  | type
  | id
  | attributes
  | relationships
  | links
deriving DecidableEq, Repr

/-- The JSON names of the fields of Data, from the struct tags. -/
def dataFieldNames : List (DataField × String) :=
  [(.type, "type"), (.id, "id"), (.attributes, "attributes"),
   (.relationships, "relationships"), (.links, "links")]

/-- The field an object key is decoded into: the field with exactly that name,
otherwise the first field whose name equals the key when case is ignored,
otherwise none and the member is skipped. -/
def fieldOf (S : JSONSyntax) (key : String) : Option DataField :=
  match dataFieldNames.find? (fun f => f.2 = key) with
  | some f => some f.1
  | none => (dataFieldNames.find? (fun f => S.foldEq f.2 key)).map (fun f => f.1)

/-- The decoder of a member into a field of type string: a string is stored, null
leaves the field as it is, any other value is a type error. -/
def decodeStringField (S : JSONSyntax) (field : String) (text : Bytes) (cur : String) :
    String × Option GoError :=
  match S.scan text with
  | .error e => (cur, some e)
  | .ok (.string s) => (s, none)
  | .ok .null => (cur, none)
  | .ok sh =>
    (cur, some ("json: cannot unmarshal " ++ sh.kind ++ " into Go struct field Data." ++ field
      ++ " of type string"))

/-- The decoder of one object member into a Data value. The raw message of
attributes takes the text of the value as it is. -/
def decodeMember (S : JSONSyntax) (d : Data) (m : String × Bytes) : Data × Option GoError :=
  match fieldOf S m.1 with
  | none => (d, none)
  | some .type =>
    let r := decodeStringField S "type" m.2 d.Type_
    ({ d with Type_ := r.1 }, r.2)
  | some .id =>
    let r := decodeStringField S "id" m.2 d.ID
    ({ d with ID := r.1 }, r.2)
  | some .attributes => ({ d with Attributes := some m.2 }, none)
  | some .relationships =>
    let r := S.decodeRelationships m.2 d.Relationships
    ({ d with Relationships := r.1 }, r.2)
  | some .links =>
    let r := S.decodeLinks m.2 d.Links
    ({ d with Links := r.1 }, r.2)

/-- The decoder of the members of an object, in order; the decoder goes on after
a value that does not fit its field and the first error is the one returned. -/
def decodeMembers (S : JSONSyntax) : Data → List (String × Bytes) → Data × Option GoError
  | d, [] => (d, none)
  | d, m :: ms =>
    let r := decodeMember S d m
    let r2 := decodeMembers S r.1 ms
    (r2.1, match r.2 with
      | some e => some e
      | none => r2.2)

/-- The call json.Unmarshal of a text into a Data value: an object is decoded
member by member, null leaves the value as it is, any other value is a type
error. -/
def decodeRecord (S : JSONSyntax) (text : Bytes) (d : Data) : Data × Option GoError :=
  match S.scan text with
  | .error e => (d, some e)
  | .ok (.object ms) => decodeMembers S d ms
  | .ok .null => (d, none)
  | .ok sh =>
    (d, some ("json: cannot unmarshal " ++ sh.kind ++ " into Go value of type jsonapi.Data"))

/-- The zero value of Data. -/
def zeroData : Data :=
  { Type_ := "", ID := "", Attributes := none, Relationships := none, Links := none }

/-- The decoder of the elements of an array into a slice of Data: the element at
an index the old slice has is decoded into the old element, any other into a zero
value. -/
def decodeElems (S : JSONSyntax) : List Data → List Bytes → List Data × Option GoError
  | _, [] => ([], none)
  | old, t :: ts =>
    let r := decodeRecord S t (old.headD zeroData)
    let r2 := decodeElems S old.tail ts
    (r.1 :: r2.1, match r.2 with
      | some e => some e
      | none => r2.2)

/-- The call json.Unmarshal of a text into a slice of Data: a syntax error leaves
the slice as it is, an array is decoded element by element into a slice that is
not nil, null makes the slice nil, any other value is a type error. -/
def decodeRecords (S : JSONSyntax) (text : Bytes) (cur : Option (List Data)) :
    Option (List Data) × Option GoError :=
  match S.scan text with
  | .error e => (cur, some e)
  | .ok (.array ts) =>
    let r := decodeElems S (cur.getD []) ts
    (some r.1, r.2)
  | .ok .null => (none, none)
  | .ok sh =>
    (cur, some ("json: cannot unmarshal " ++ sh.kind ++ " into Go value of type []jsonapi.Data"))

/-- A library whose encoder of Data and whose decoder of slices of Data are the
ones written out above; its other calls are those of the given library. -/
def structJSON (S : JSONSyntax) (J : JSONLib) : JSONLib :=
  { J with encodeData := encodeRecord S, unmarshalDataArray := decodeRecords S }


/-! ## An example syntax -/

/-- The string literal of a string of plain characters (no quote, backslash,
control or non-ASCII character): the characters between double quotes. -/
def quotePlain (s : String) : Bytes :=
  [0x22] ++ s.data.map (fun c => Fin.ofNat c.toNat) ++ [0x22]

/-- A syntax for examples, over the given scanner. It writes strings of plain
characters; a raw message is rejected when empty and otherwise written as it is
when the scanner accepts it (the example texts are compact already). The example
records have no relationships and no links: their codecs write the empty object
and read nothing. -/
def plainSyntax (scan : Bytes → Except GoError JShape) : JSONSyntax :=
  { scan := scan
    quote := quotePlain
    compact := fun raw =>
      if raw = [] then .error "unexpected end of JSON input"
      else match scan raw with
        | .ok _ => .ok raw
        | .error e => .error e
    encodeRelationships := fun _ => .ok [0x7b, 0x7d]
    decodeRelationships := fun _ cur => (cur, none)
    encodeLinks := fun _ => [0x7b, 0x7d]
    decodeLinks := fun _ cur => (cur, none)
    foldEq := fun a b => a.toLower = b.toLower }

/-- Two records: type manbearpigs, id 1 and the attributes mooX; type
manbearpigs, no id and no attributes. -/
def roundTripRecords : List Data :=
  [attrRecord "manbearpigs" "1" mooX, bareRecord "manbearpigs" ""]

/-- The members of the text of the first of the two records. -/
def firstMembers : List (String × Bytes) :=
  [("type", quotePlain "manbearpigs"), ("id", quotePlain "1"), ("attributes", mooX)]

/-- The members of the text of the second of the two records. -/
def secondMembers : List (String × Bytes) :=
  [("type", quotePlain "manbearpigs"), ("attributes", jsonNull)]

/-- The text of the first of the two records, as bytes: an object with the type
manbearpigs, the id 1 and the attributes mooX. -/
def firstText : Bytes :=
  [0x7b, 0x22, 0x74, 0x79, 0x70, 0x65, 0x22, 0x3a, 0x22, 0x6d, 0x61, 0x6e, 0x62, 0x65, 0x61,
    0x72, 0x70, 0x69, 0x67, 0x73, 0x22, 0x2c, 0x22, 0x69, 0x64, 0x22, 0x3a, 0x22, 0x31, 0x22,
    0x2c, 0x22, 0x61, 0x74, 0x74, 0x72, 0x69, 0x62, 0x75, 0x74, 0x65, 0x73, 0x22, 0x3a, 0x7b,
    0x22, 0x6d, 0x6f, 0x6f, 0x22, 0x3a, 0x22, 0x78, 0x22, 0x7d, 0x7d]

/-- The text of the second of the two records, as bytes: an object with the type
manbearpigs and the attributes null. -/
def secondText : Bytes :=
  [0x7b, 0x22, 0x74, 0x79, 0x70, 0x65, 0x22, 0x3a, 0x22, 0x6d, 0x61, 0x6e, 0x62, 0x65, 0x61,
    0x72, 0x70, 0x69, 0x67, 0x73, 0x22, 0x2c, 0x22, 0x61, 0x74, 0x74, 0x72, 0x69, 0x62, 0x75,
    0x74, 0x65, 0x73, 0x22, 0x3a, 0x6e, 0x75, 0x6c, 0x6c, 0x7d]

/-- The texts the example scanner knows, each with its shape: three strings,
null, the attributes mooX, the two record texts, the array of the two and the
empty array. -/
def exampleShapes : List (Bytes × JShape) :=
  [(quotePlain "manbearpigs", .string "manbearpigs"),
   (quotePlain "1", .string "1"),
   (quotePlain "", .string ""),
   (quotePlain "x", .string "x"),
   (jsonNull, .null),
   (mooX, .object [("moo", quotePlain "x")]),
   (firstText, .object firstMembers),
   (secondText, .object secondMembers),
   ([0x5b] ++ firstText ++ [0x2c] ++ secondText ++ [0x5d], .array [firstText, secondText]),
   ([0x5b, 0x5d], .array [])]

/-- The example syntax: its scanner knows the texts of exampleShapes and reports
a syntax error for any other. -/
def exampleSyntax : JSONSyntax :=
  plainSyntax fun text =>
    match exampleShapes.lookup text with
    | some sh => .ok sh
    | none => .error "invalid character"

/-- The per-record decode of a resource type is idempotent: decoding a record
into a value that is already the successful result of decoding that record
succeeds and changes nothing. -/
def DecodeIdempotent {ε : Type} (E : GoType ε) : Prop :=
  ∀ (r : Data) (x x1 : ε), setDataIntoTarget E r x = (x1, none) →
    setDataIntoTarget E r x1 = (x1, none)

/-- A record is settled in a working value when the scan finds an element for its
id and decoding the record into that element succeeds and changes nothing. -/
def Settled {ε : Type} (E : GoType ε) (v : List ε) (r : Data) : Prop :=
  ∃ (i : Nat) (x : ε), scan E r.ID v = .ok (some i) ∧ v[i]? = some x ∧
    setDataIntoTarget E r x = (x, none)

/-! ## The single-record path -/

theorem setDataIntoTarget_noSetID {α : Type} (T : GoType α) (data : Data) (target : α)
    (h : T.SetID = none) : setDataIntoTarget T data target = (target, some ErrInterface) := by
  simp [setDataIntoTarget, h]

theorem setDataIntoTarget_noType {α : Type} (T : GoType α) (data : Data) (target : α)
    (f : String → α → α × Option GoError) (h : T.SetID = some f) (ht : data.Type_ = "") :
    setDataIntoTarget T data target = (target, some ErrNoType) := by
  simp [setDataIntoTarget, h, ht]

theorem setDataIntoTarget_checkType {α : Type} (T : GoType α) (data : Data) (target : α)
    (f : String → α → α × Option GoError) (h : T.SetID = some f) (ht : data.Type_ ≠ "")
    (e : GoError) (he : checkType T data.Type_ target = some e) :
    setDataIntoTarget T data target = (target, some e) := by
  simp [setDataIntoTarget, h, ht, he]

theorem checkType_ok {α : Type} (T : GoType α) (x y : String) (target : α)
    (hy : T.getStructType target = .ok y) :
    checkType T x target =
      if x ≠ y then some ("Type " ++ x ++ " in JSON does not match target struct type " ++ y)
      else none := by
  simp [checkType, hy]

/-- The result of setDataIntoTarget once the interface, the type and the type
match checks have passed. -/
theorem setDataIntoTarget_pass {α : Type} (T : GoType α) (data : Data) (target : α)
    (f : String → α → α × Option GoError) (h : T.SetID = some f) (ht : data.Type_ ≠ "")
    (hy : T.getStructType target = .ok data.Type_) :
    setDataIntoTarget T data target =
      match data.Attributes with
      | some attrs =>
        match T.jsonUnmarshal attrs target with
        | (t, some err) => (t, some err)
        | (t, none) => f data.ID t
      | none => f data.ID target := by
  have hc : checkType T data.Type_ target = none := by
    rw [checkType_ok T _ _ target hy]; simp
  simp only [setDataIntoTarget, h, ht, hc, if_false]

/-- C5, as the code has it. For an incoming type name x and a target whose
declared type name y is obtained, checkType fails exactly when x differs from y,
and its message is Type x in JSON does not match target struct type y, which
holds both names. When x differs from y, setDataIntoTarget and Unmarshal fail
with the target left as it was (no attribute decoded, SetID not called): with
ErrInterface for a target without SetID, with ErrNoType when x is empty, and with
the message of checkType otherwise. -/
theorem checkType_fails_iff_mismatch {α ε : Type} (T : GoType α) (x y : String) (target : α)
    (hy : T.getStructType target = .ok y) :
    ((checkType T x target).isSome ↔ x ≠ y) ∧
    (x ≠ y → checkType T x target =
      some ("Type " ++ x ++ " in JSON does not match target struct type " ++ y)) ∧
    (x ≠ y → ∀ data : Data, data.Type_ = x →
      setDataIntoTarget T data target =
        (target, some (match T.SetID with
          | none => ErrInterface
          | some _ =>
            if x = "" then ErrNoType
            else "Type " ++ x ++ " in JSON does not match target struct type " ++ y)) ∧
      (∀ (J : JSONLib) (R : TargetTypes α ε) (bytes : Bytes) (doc : Document)
          (c : DataContainer),
        R.T = T → J.unmarshalDocument bytes = .ok doc → doc.Data = some c →
        c.DataObject = some data →
        Unmarshal J R bytes (.ptr (.obj target)) =
          (.ptr (.obj target), some (match T.SetID with
            | none => ErrInterface
            | some _ =>
              if x = "" then ErrNoType
              else "Type " ++ x ++ " in JSON does not match target struct type " ++ y)))) := by
  have hc := checkType_ok T x y target hy
  refine ⟨?_, ?_, ?_⟩
  · rw [hc]; by_cases hxy : x = y <;> simp [hxy]
  · intro hxy
    rw [hc]; simp [hxy]
  · intro hxy data hd
    subst hd
    have he : checkType T data.Type_ target =
        some ("Type " ++ data.Type_ ++ " in JSON does not match target struct type " ++ y) := by
      rw [hc]; simp [hxy]
    have hres : setDataIntoTarget T data target =
        (target, some (match T.SetID with
          | none => ErrInterface
          | some _ =>
            if data.Type_ = "" then ErrNoType
            else "Type " ++ data.Type_ ++ " in JSON does not match target struct type "
              ++ y)) := by
      cases hs : T.SetID with
      | none => exact setDataIntoTarget_noSetID T data target hs
      | some f =>
        by_cases ht : data.Type_ = ""
        · rw [setDataIntoTarget_noType T data target f hs ht]
          simp [ht]
        · rw [setDataIntoTarget_checkType T data target f hs ht _ he]
          simp [ht]
    refine ⟨hres, ?_⟩
    intro J R bytes doc c hR hdoc hdata hobj
    subst hR
    simp only [Unmarshal, hdoc, hdata, hobj, hres]

/-- C4, as the code has it. For a single-object payload whose record has a
non-empty type equal to the declared name of a target that implements SetID: if
the attribute decoding (when attributes are present) and SetID succeed, Unmarshal
returns no error and the target is SetID(record id) applied to the
attribute-decoded prior value; its GetID is the record id when a successful
SetID of the type makes GetID return the id it was given. -/
theorem Unmarshal_single_object {α ε : Type} (J : JSONLib) (R : TargetTypes α ε)
    (bytes : Bytes) (doc : Document) (c : DataContainer) (data : Data) (v v1 v2 : α)
    (f : String → α → α × Option GoError)
    (hdoc : J.unmarshalDocument bytes = .ok doc) (hdata : doc.Data = some c)
    (hobj : c.DataObject = some data)
    (htype : data.Type_ ≠ "") (hname : R.T.getStructType v = .ok data.Type_)
    (hset : R.T.SetID = some f)
    (hattrs : match data.Attributes with
      | some attrs => R.T.jsonUnmarshal attrs v = (v1, none)
      | none => v1 = v)
    (hid : f data.ID v1 = (v2, none)) :
    setDataIntoTarget R.T data v = (v2, none) ∧
    Unmarshal J R bytes (.ptr (.obj v)) = (.ptr (.obj v2), none) ∧
    ((∀ id a a1, f id a = (a1, none) → R.T.GetID a1 = some id) →
      R.T.GetID v2 = some data.ID) := by
  have hpass := setDataIntoTarget_pass R.T data v f hset htype hname
  have hres : setDataIntoTarget R.T data v = (v2, none) := by
    rw [hpass]
    cases ha : data.Attributes with
    | none => rw [ha] at hattrs; simp only [] at hattrs; subst hattrs; simpa using hid
    | some attrs => rw [ha] at hattrs; simp only [] at hattrs; simp only [hattrs, hid]
  refine ⟨hres, ?_, fun hlaw => hlaw _ _ _ hid⟩
  simp [Unmarshal, hdoc, hdata, hobj, hres]

/-- C6, as the code has it. The interface check comes first: a target without
SetID gets ErrInterface whatever the record is. For a target that implements
SetID, a record with an empty type name fails with ErrNoType before the type
name of the target is looked at, and the target is left as it was. -/
theorem setDataIntoTarget_empty_type {α : Type} (T : GoType α) (data : Data) (target : α)
    (ht : data.Type_ = "") :
    (T.SetID = none → setDataIntoTarget T data target = (target, some ErrInterface)) ∧
    (T.SetID ≠ none → setDataIntoTarget T data target = (target, some ErrNoType)) := by
  refine ⟨fun h => setDataIntoTarget_noSetID T data target h, fun h => ?_⟩
  cases hs : T.SetID with
  | none => exact absurd hs h
  | some f => exact setDataIntoTarget_noType T data target f hs ht

/-- C7. When the parsed document carries an array (of any length) and the pointer
target does not point to a slice, Unmarshal fails with the message that names the
type of the pointee and leaves the target as it was, whatever the capabilities of
the target are. -/
theorem Unmarshal_array_into_struct {α ε : Type} (J : JSONLib) (R : TargetTypes α ε)
    (bytes : Bytes) (doc : Document) (c : DataContainer) (records : List Data) (v : α)
    (hdoc : J.unmarshalDocument bytes = .ok doc) (hdata : doc.Data = some c)
    (hobj : c.DataObject = none) (harr : c.DataArray = some records) :
    Unmarshal J R bytes (.ptr (.obj v)) =
      (.ptr (.obj v), some ("Cannot unmarshal array to struct target " ++ R.T.name)) := by
  simp [Unmarshal, hdoc, hdata, hobj, harr]

/-! ## The union containers -/

theorem startsWith_cons (b p : Byte) (rest : Bytes) :
    startsWith (b :: rest) [p] = decide (p = b) := by
  simp [startsWith, List.isPrefixOf, beq_eq_decide]

theorem startsWith_nil (p : Byte) : startsWith [] [p] = false := by
  simp [startsWith, List.isPrefixOf]

/-- C8, as the code has it. The variant is chosen by the first byte of the raw
payload, with no whitespace skipped: a payload that starts with an opening brace
is decoded into DataObject and DataArray is untouched, a payload that starts with
an opening bracket is decoded into DataArray and DataObject is untouched, and in
both cases the call succeeds exactly when the JSON decoder does; a payload that
starts with a whitespace byte is rejected with the container unchanged. -/
theorem DataContainer_UnmarshalJSON_first_byte (J : JSONLib) (c : DataContainer)
    (rest : Bytes) :
    DataContainer.UnmarshalJSON J c (0x7b :: rest) =
      ({ c with DataObject := (J.unmarshalData (0x7b :: rest) c.DataObject).1 },
        (J.unmarshalData (0x7b :: rest) c.DataObject).2) ∧
    DataContainer.UnmarshalJSON J c (0x5b :: rest) =
      ({ c with DataArray := (J.unmarshalDataArray (0x5b :: rest) c.DataArray).1 },
        (J.unmarshalDataArray (0x5b :: rest) c.DataArray).2) ∧
    (∀ b : Byte, isJSONSpace b = true →
      DataContainer.UnmarshalJSON J c (b :: rest) =
        (c, some "Invalid json for data array/object")) := by
  refine ⟨?_, ?_, ?_⟩
  · simp [DataContainer.UnmarshalJSON, startsWith_cons]
  · have h : ¬ ((0x7b : Byte) = 0x5b) := by decide
    simp [DataContainer.UnmarshalJSON, startsWith_cons, h]
  · intro b hb
    have h1 : ¬ ((0x7b : Byte) = b) := by
      intro hc; subst hc; exact absurd hb (by decide)
    have h2 : ¬ ((0x5b : Byte) = b) := by
      intro hc; subst hc; exact absurd hb (by decide)
    simp [DataContainer.UnmarshalJSON, startsWith_cons, h1, h2]

/-- C9. A payload that is empty or whose first byte is neither an opening brace
nor an opening bracket makes both UnmarshalJSON methods return an error with the
container unchanged; and for every payload the two methods take the same branch:
both the object decoder, both the array decoder, or both the error. -/
theorem UnmarshalJSON_same_rule (J : JSONLib) (c : DataContainer)
    (rc : RelationshipDataContainer) (payload : Bytes) :
    ((payload = [] ∨ ∃ b rest, payload = b :: rest ∧ b ≠ 0x7b ∧ b ≠ 0x5b) →
      (∃ e, DataContainer.UnmarshalJSON J c payload = (c, some e)) ∧
      (∃ e, RelationshipDataContainer.UnmarshalJSON J rc payload = (rc, some e))) ∧
    ((payload.head? = some 0x7b ∧
        DataContainer.UnmarshalJSON J c payload =
          ({ c with DataObject := (J.unmarshalData payload c.DataObject).1 },
            (J.unmarshalData payload c.DataObject).2) ∧
        RelationshipDataContainer.UnmarshalJSON J rc payload =
          ({ rc with DataObject := (J.unmarshalRelData payload rc.DataObject).1 },
            (J.unmarshalRelData payload rc.DataObject).2)) ∨
      (payload.head? = some 0x5b ∧
        DataContainer.UnmarshalJSON J c payload =
          ({ c with DataArray := (J.unmarshalDataArray payload c.DataArray).1 },
            (J.unmarshalDataArray payload c.DataArray).2) ∧
        RelationshipDataContainer.UnmarshalJSON J rc payload =
          ({ rc with DataArray := (J.unmarshalRelDataArray payload rc.DataArray).1 },
            (J.unmarshalRelDataArray payload rc.DataArray).2)) ∨
      (payload.head? ≠ some 0x7b ∧ payload.head? ≠ some 0x5b ∧
        DataContainer.UnmarshalJSON J c payload =
          (c, some "Invalid json for data array/object") ∧
        RelationshipDataContainer.UnmarshalJSON J rc payload =
          (rc, some "Invalid JSON for relationship data array/object"))) := by
  have hne : ¬ ((0x7b : Byte) = 0x5b) := by decide
  constructor
  · rintro (h | ⟨b, rest, h, hb1, hb2⟩)
    · subst h
      exact ⟨⟨"Invalid json for data array/object",
          by simp [DataContainer.UnmarshalJSON, startsWith_nil]⟩,
        ⟨"Invalid JSON for relationship data array/object",
          by simp [RelationshipDataContainer.UnmarshalJSON, startsWith_nil]⟩⟩
    · subst h
      exact ⟨⟨"Invalid json for data array/object",
          by simp [DataContainer.UnmarshalJSON, startsWith_cons, Ne.symm hb1, Ne.symm hb2]⟩,
        ⟨"Invalid JSON for relationship data array/object",
          by simp [RelationshipDataContainer.UnmarshalJSON, startsWith_cons, Ne.symm hb1,
            Ne.symm hb2]⟩⟩
  · cases payload with
    | nil =>
      right; right
      simp [DataContainer.UnmarshalJSON, RelationshipDataContainer.UnmarshalJSON,
        startsWith_nil]
    | cons b rest =>
      by_cases h1 : b = 0x7b
      · left
        subst h1
        simp [DataContainer.UnmarshalJSON, RelationshipDataContainer.UnmarshalJSON,
          startsWith_cons]
      · by_cases h2 : b = 0x5b
        · right; left
          subst h2
          simp [DataContainer.UnmarshalJSON, RelationshipDataContainer.UnmarshalJSON,
            startsWith_cons, hne]
        · right; right
          simp [DataContainer.UnmarshalJSON, RelationshipDataContainer.UnmarshalJSON,
            startsWith_cons, h1, h2, Ne.symm h1, Ne.symm h2]

theorem mapM_ok_of_forall2 {α : Type} (enc : α → Except GoError Bytes) :
    ∀ (xs : List α) (parts : List Bytes),
      List.Forall₂ (fun x p => enc x = .ok p) xs parts → xs.mapM enc = .ok parts := by
  intro xs parts h
  induction h with
  | nil => rfl
  | cons hx _ ih =>
    rw [List.mapM_cons, hx, ih]
    rfl

theorem mapM_error_of_first {α : Type} (enc : α → Except GoError Bytes) (e : GoError) :
    ∀ (pre : List α) (parts : List Bytes) (x : α) (post : List α),
      List.Forall₂ (fun a p => enc a = .ok p) pre parts → enc x = .error e →
      (pre ++ x :: post).mapM enc = .error e := by
  intro pre parts x post h hx
  induction h with
  | nil =>
    rw [List.nil_append, List.mapM_cons, hx]
    rfl
  | cons ha _ ih =>
    rw [List.cons_append, List.mapM_cons, ha, ih]
    rfl

/-- The text of a slice whose elements are all encoded: the element texts between
brackets, separated by commas. -/
theorem jsonMarshalSlice_ok {α : Type} (enc : α → Except GoError Bytes) (xs : List α)
    (parts : List Bytes) (h : List.Forall₂ (fun x p => enc x = .ok p) xs parts) :
    jsonMarshalSlice enc (some xs) =
      .ok ([0x5b] ++ List.intercalate [0x2c] parts ++ [0x5d]) := by
  simp only [jsonMarshalSlice]
  rw [mapM_ok_of_forall2 enc xs parts h]
  rfl

/-- The first element that is not encoded fails the slice with its error. -/
theorem jsonMarshalSlice_error {α : Type} (enc : α → Except GoError Bytes) (e : GoError)
    (pre : List α) (parts : List Bytes) (x : α) (post : List α)
    (h : List.Forall₂ (fun a p => enc a = .ok p) pre parts) (hx : enc x = .error e) :
    jsonMarshalSlice enc (some (pre ++ x :: post)) = .error e := by
  simp only [jsonMarshalSlice]
  rw [mapM_error_of_first enc e pre parts x post h hx]
  rfl

/-- C10. MarshalJSON of both containers returns the JSON array encoding of
DataArray whenever DataArray is not nil, also when DataObject is populated: an
opening bracket, the encodings of the elements in order separated by commas, and
a closing bracket (for two elements the bracket, the first text, a comma, the
second text, the bracket; for length zero the two bytes of the empty array), or
the error of the first element that cannot be encoded. Otherwise it returns the
encoding of DataObject, which is null when DataObject is nil. -/
theorem MarshalJSON_array_first (J : JSONLib) :
    (∀ (o : Option Data) (xs : List Data) (parts : List Bytes),
      List.Forall₂ (fun x p => J.encodeData x = .ok p) xs parts →
      DataContainer.MarshalJSON J { DataObject := o, DataArray := some xs } =
        .ok ([0x5b] ++ List.intercalate [0x2c] parts ++ [0x5d])) ∧
    (∀ (o : Option Data) (d1 d2 : Data) (p1 p2 : Bytes),
      J.encodeData d1 = .ok p1 → J.encodeData d2 = .ok p2 →
      DataContainer.MarshalJSON J { DataObject := o, DataArray := some [d1, d2] } =
        .ok ([0x5b] ++ p1 ++ [0x2c] ++ p2 ++ [0x5d])) ∧
    (∀ (o : Option Data) (pre : List Data) (parts : List Bytes) (x : Data) (post : List Data)
        (e : GoError),
      List.Forall₂ (fun a p => J.encodeData a = .ok p) pre parts → J.encodeData x = .error e →
      DataContainer.MarshalJSON J { DataObject := o, DataArray := some (pre ++ x :: post) } =
        .error e) ∧
    (∀ o : Option Data,
      DataContainer.MarshalJSON J { DataObject := o, DataArray := some [] } =
        .ok [0x5b, 0x5d]) ∧
    (∀ d : Data,
      DataContainer.MarshalJSON J { DataObject := some d, DataArray := none } =
        J.encodeData d) ∧
    DataContainer.MarshalJSON J { DataObject := none, DataArray := none } =
      .ok [0x6e, 0x75, 0x6c, 0x6c] ∧
    (∀ (o : Option RelationshipData) (xs : List RelationshipData) (parts : List Bytes),
      List.Forall₂ (fun x p => J.encodeRelData x = .ok p) xs parts →
      RelationshipDataContainer.MarshalJSON J { DataObject := o, DataArray := some xs } =
        .ok ([0x5b] ++ List.intercalate [0x2c] parts ++ [0x5d])) ∧
    (∀ (o : Option RelationshipData) (d1 d2 : RelationshipData) (p1 p2 : Bytes),
      J.encodeRelData d1 = .ok p1 → J.encodeRelData d2 = .ok p2 →
      RelationshipDataContainer.MarshalJSON J { DataObject := o, DataArray := some [d1, d2] } =
        .ok ([0x5b] ++ p1 ++ [0x2c] ++ p2 ++ [0x5d])) ∧
    (∀ (o : Option RelationshipData) (pre : List RelationshipData) (parts : List Bytes)
        (x : RelationshipData) (post : List RelationshipData) (e : GoError),
      List.Forall₂ (fun a p => J.encodeRelData a = .ok p) pre parts →
      J.encodeRelData x = .error e →
      RelationshipDataContainer.MarshalJSON J
          { DataObject := o, DataArray := some (pre ++ x :: post) } = .error e) ∧
    (∀ o : Option RelationshipData,
      RelationshipDataContainer.MarshalJSON J { DataObject := o, DataArray := some [] } =
        .ok [0x5b, 0x5d]) ∧
    (∀ d : RelationshipData,
      RelationshipDataContainer.MarshalJSON J { DataObject := some d, DataArray := none } =
        J.encodeRelData d) ∧
    RelationshipDataContainer.MarshalJSON J { DataObject := none, DataArray := none } =
      .ok [0x6e, 0x75, 0x6c, 0x6c] := by
  have hD : ∀ (o : Option Data) (xs : List Data),
      DataContainer.MarshalJSON J { DataObject := o, DataArray := some xs } =
        jsonMarshalSlice J.encodeData (some xs) := by
    intro o xs; simp [DataContainer.MarshalJSON]
  have hR : ∀ (o : Option RelationshipData) (xs : List RelationshipData),
      RelationshipDataContainer.MarshalJSON J { DataObject := o, DataArray := some xs } =
        jsonMarshalSlice J.encodeRelData (some xs) := by
    intro o xs; simp [RelationshipDataContainer.MarshalJSON]
  refine ⟨?_, ?_, ?_, ?_, ?_, ?_, ?_, ?_, ?_, ?_, ?_, ?_⟩
  · intro o xs parts h
    rw [hD, jsonMarshalSlice_ok J.encodeData xs parts h]
  · intro o d1 d2 p1 p2 h1 h2
    rw [hD, jsonMarshalSlice_ok J.encodeData [d1, d2] [p1, p2]
      (List.Forall₂.cons h1 (List.Forall₂.cons h2 List.Forall₂.nil))]
    simp [List.intercalate]
  · intro o pre parts x post e h hx
    rw [hD, jsonMarshalSlice_error J.encodeData e pre parts x post h hx]
  · intro o
    rw [hD, jsonMarshalSlice_ok J.encodeData [] [] List.Forall₂.nil]
    rfl
  · intro d; simp [DataContainer.MarshalJSON, jsonMarshalPtr]
  · simp [DataContainer.MarshalJSON, jsonMarshalPtr, jsonNull]
  · intro o xs parts h
    rw [hR, jsonMarshalSlice_ok J.encodeRelData xs parts h]
  · intro o d1 d2 p1 p2 h1 h2
    rw [hR, jsonMarshalSlice_ok J.encodeRelData [d1, d2] [p1, p2]
      (List.Forall₂.cons h1 (List.Forall₂.cons h2 List.Forall₂.nil))]
    simp [List.intercalate]
  · intro o pre parts x post e h hx
    rw [hR, jsonMarshalSlice_error J.encodeRelData e pre parts x post h hx]
  · intro o
    rw [hR, jsonMarshalSlice_ok J.encodeRelData [] [] List.Forall₂.nil]
    rfl
  · intro d; simp [RelationshipDataContainer.MarshalJSON, jsonMarshalPtr]
  · simp [RelationshipDataContainer.MarshalJSON, jsonMarshalPtr, jsonNull]

/-! ## The scan of the working slice -/

theorem scan_some_spec {ε : Type} (E : GoType ε) (id : String) :
    ∀ (l : List ε) (i : Nat), scan E id l = .ok (some i) →
      ∃ x, l[i]? = some x ∧ E.GetID x = some id ∧
        ∀ j, j < i → ∀ y, l[j]? = some y → E.GetID y ≠ some id := by
  intro l
  induction l with
  | nil => intro i h; simp [scan] at h
  | cons a l ih =>
    intro i h
    unfold scan at h
    cases hg : E.GetID a with
    | none => simp [hg] at h
    | some g =>
      simp only [hg] at h
      by_cases hid : id = g
      · simp only [hid, if_true, Except.ok.injEq, Option.some.injEq] at h
        subst h
        exact ⟨a, by simp, by simp [hg, hid], fun j hj => absurd hj (Nat.not_lt_zero j)⟩
      · simp only [hid, if_false] at h
        cases hs : scan E id l with
        | error e => simp [hs] at h
        | ok r =>
          simp only [hs, Except.ok.injEq] at h
          cases r with
          | none => simp at h
          | some k =>
            simp only [Option.map_some', Option.some.injEq] at h
            subst h
            obtain ⟨x, hx, hgx, hlt⟩ := ih k hs
            refine ⟨x, by simpa using hx, hgx, ?_⟩
            intro j hj y hy
            cases j with
            | zero =>
              simp only [List.getElem?_cons_zero, Option.some.injEq] at hy
              subst hy
              rw [hg]
              intro hcontra
              exact hid (Option.some.inj hcontra).symm
            | succ j =>
              simp only [List.getElem?_cons_succ] at hy
              exact hlt j (by omega) y hy

theorem scan_none_spec {ε : Type} (E : GoType ε) (id : String) :
    ∀ l : List ε, scan E id l = .ok none → ∀ y ∈ l, E.GetID y ≠ some id := by
  intro l
  induction l with
  | nil => intro _ y hy; simp at hy
  | cons a l ih =>
    intro h y hy
    unfold scan at h
    cases hg : E.GetID a with
    | none => simp [hg] at h
    | some g =>
      simp only [hg] at h
      by_cases hid : id = g
      · simp [hid] at h
      · simp only [hid, if_false] at h
        cases hs : scan E id l with
        | error e => simp [hs] at h
        | ok r =>
          simp only [hs, Except.ok.injEq] at h
          cases r with
          | some k => simp at h
          | none =>
            rcases List.mem_cons.mp hy with rfl | hmem
            · rw [hg]; intro hc; exact hid (Option.some.inj hc).symm
            · exact ih hs y hmem

theorem scan_error_spec {ε : Type} (E : GoType ε) (id : String) :
    ∀ (l : List ε) (e : GoError), scan E id l = .error e → e = errNoGetID := by
  intro l
  induction l with
  | nil => intro e h; simp [scan] at h
  | cons a l ih =>
    intro e h
    unfold scan at h
    cases hg : E.GetID a with
    | none => simp only [hg, Except.error.injEq] at h; exact h.symm
    | some g =>
      simp only [hg] at h
      by_cases hid : id = g
      · simp [hid] at h
      · simp only [hid, if_false] at h
        cases hs : scan E id l with
        | error e1 =>
          simp only [hs, Except.error.injEq] at h
          subst h
          exact ih e1 hs
        | ok r => simp [hs] at h

theorem slotOf_lt_length (id : String) (K : List (Option String)) :
    slotOf id K < K.length ↔ some id ∈ K := by
  induction K with
  | nil => simp [slotOf]
  | cons k ks ih =>
    by_cases hk : k = some id
    · simp [slotOf, hk]
    · have hk1 : ¬ some id = k := fun h => hk h.symm
      simp [slotOf, hk, hk1, ih]

theorem slotOf_le_length (id : String) (K : List (Option String)) :
    slotOf id K ≤ K.length := by
  induction K with
  | nil => simp [slotOf]
  | cons k ks ih =>
    by_cases hk : k = some id
    · simp [slotOf, hk]
    · simp [slotOf, hk, ih]

theorem slotOf_append_of_mem (id : String) (K K1 : List (Option String))
    (h : some id ∈ K) : slotOf id (K ++ K1) = slotOf id K := by
  induction K with
  | nil => simp at h
  | cons k ks ih =>
    by_cases hk : k = some id
    · simp [slotOf, hk]
    · have hk1 : ¬ some id = k := fun h => hk h.symm
      have hmem : some id ∈ ks := by simpa [hk1] using h
      simp [slotOf, hk, ih hmem]

theorem slotOf_append_of_not_mem (id : String) (K : List (Option String))
    (h : some id ∉ K) : slotOf id (K ++ [some id]) = K.length := by
  induction K with
  | nil => simp [slotOf]
  | cons k ks ih =>
    have hk : ¬ k = some id := fun hc => h (by simp [hc])
    have hmem : some id ∉ ks := fun hc => h (by simp [hc])
    simp [slotOf, hk, ih hmem]

theorem slotOf_getElem? (id : String) (K : List (Option String)) (h : some id ∈ K) :
    K[slotOf id K]? = some (some id) := by
  induction K with
  | nil => simp at h
  | cons k ks ih =>
    by_cases hk : k = some id
    · simp [slotOf, hk]
    · have hk1 : ¬ some id = k := fun h => hk h.symm
      have hmem : some id ∈ ks := by simpa [hk1] using h
      simp [slotOf, hk, ih hmem]

theorem slotOf_first (id : String) (K : List (Option String)) (j : Nat)
    (hj : j < slotOf id K) : K[j]? ≠ some (some id) := by
  induction K generalizing j with
  | nil => simp
  | cons k ks ih =>
    by_cases hk : k = some id
    · simp [slotOf, hk] at hj
    · simp only [slotOf, hk, if_false] at hj
      cases j with
      | zero => simpa using hk
      | succ j => simpa using ih j (by omega)

/-- The index found by the scan is the position of the record id in the list of
the identifiers of the elements. -/
theorem scan_some_slotOf {ε : Type} (E : GoType ε) (id : String) (l : List ε) (i : Nat)
    (h : scan E id l = .ok (some i)) :
    some id ∈ l.map E.GetID ∧ i = slotOf id (l.map E.GetID) := by
  induction l generalizing i with
  | nil => simp [scan] at h
  | cons a l ih =>
    unfold scan at h
    cases hg : E.GetID a with
    | none => simp [hg] at h
    | some g =>
      simp only [hg] at h
      by_cases hid : id = g
      · simp only [hid, if_true, Except.ok.injEq, Option.some.injEq] at h
        subst h
        subst hid
        simp [hg, slotOf]
      · simp only [hid, if_false] at h
        cases hs : scan E id l with
        | error e => simp [hs] at h
        | ok r =>
          simp only [hs, Except.ok.injEq] at h
          cases r with
          | none => simp at h
          | some k =>
            simp only [Option.map_some', Option.some.injEq] at h
            subst h
            obtain ⟨hmem, hk⟩ := ih k hs
            refine ⟨by simp only [List.map_cons, List.mem_cons]; exact Or.inr hmem, ?_⟩
            have hne : ¬ g = id := fun hc => hid hc.symm
            simp [slotOf, hg, hne, ← hk]

theorem scan_none_not_mem {ε : Type} (E : GoType ε) (id : String) (l : List ε)
    (h : scan E id l = .ok none) : some id ∉ l.map E.GetID := by
  intro hmem
  obtain ⟨y, hy, hg⟩ := List.mem_map.mp hmem
  exact scan_none_spec E id l h y hy hg

/-! ## One iteration of the collection loop -/

/-- C2. For a working collection and a record whose iteration ends without an
error: if some element has a GetID equal to the record id, the element of lowest
index among them is the one given to setDataIntoTarget, the result is written at
that index and the length is unchanged; if no element has a GetID equal to the
record id, setDataIntoTarget runs on a zero value and the result is appended, so
the length grows by one. -/
theorem step_first_match_or_append {ε : Type} (E : GoType ε) (w w1 : Work ε) (record : Data)
    (h : step E w record = (w1, none)) :
    ((∃ x ∈ w.value, E.GetID x = some record.ID) →
      ∃ i x, w.value[i]? = some x ∧ E.GetID x = some record.ID ∧
        (∀ j, j < i → ∀ y, w.value[j]? = some y → E.GetID y ≠ some record.ID) ∧
        (setDataIntoTarget E record x).2 = none ∧
        w1.value = w.value.set i (setDataIntoTarget E record x).1 ∧
        w1.value.length = w.value.length) ∧
    ((∀ x ∈ w.value, E.GetID x ≠ some record.ID) →
      (setDataIntoTarget E record E.zero).2 = none ∧
      w1.value = w.value ++ [(setDataIntoTarget E record E.zero).1] ∧
      w1.value.length = w.value.length + 1) := by
  unfold step at h
  cases hs : scan E record.ID w.value with
  | error e => simp [hs] at h
  | ok r =>
    cases r with
    | some i =>
      obtain ⟨x, hx, hgx, hlt⟩ := scan_some_spec E record.ID w.value i hs
      simp only [hs, hx, Prod.mk.injEq] at h
      obtain ⟨hw, herr⟩ := h
      constructor
      · intro _
        refine ⟨i, x, hx, hgx, hlt, herr, ?_, ?_⟩
        · rw [← hw]
        · rw [← hw]; simp
      · intro hall
        have hmem : x ∈ w.value := List.getElem?_mem hx
        exact absurd hgx (hall x hmem)
    | none =>
      have hnone := scan_none_spec E record.ID w.value hs
      simp only [hs] at h
      constructor
      · rintro ⟨x, hx, hgx⟩
        exact absurd hgx (hnone x hx)
      · intro _
        cases hr : setDataIntoTarget E record E.zero with
        | mk x err =>
          cases err with
          | some e => simp [hr] at h
          | none =>
            simp only [hr, Prod.mk.injEq, and_true] at h
            subst h
            refine ⟨rfl, ?_, ?_⟩
            · unfold Work.append; split <;> rfl
            · unfold Work.append; split <;> simp

/-! ## The collection loop -/

theorem loop_snoc {ε : Type} (E : GoType ε) (rs : List Data) (r : Data) :
    ∀ w : Work ε, loop E w (rs ++ [r]) =
      match loop E w rs with
      | (w1, some e) => (w1, some e)
      | (w1, none) => step E w1 r := by
  induction rs with
  | nil =>
    intro w
    simp only [List.nil_append, loop]
    cases hs : step E w r with
    | mk w1 err => cases err <;> rfl
  | cons a rs ih =>
    intro w
    simp only [List.cons_append, loop]
    cases hs : step E w a with
    | mk w1 err =>
      cases err with
      | some e => rfl
      | none => exact ih w1

/-- A successful SetID is the last thing setDataIntoTarget does. -/
theorem setDataIntoTarget_ok_SetID {α : Type} (T : GoType α) (data : Data) (x x1 : α)
    (h : setDataIntoTarget T data x = (x1, none)) :
    ∃ f a, T.SetID = some f ∧ f data.ID a = (x1, none) := by
  unfold setDataIntoTarget at h
  cases hs : T.SetID with
  | none => simp [hs] at h
  | some f =>
    simp only [hs] at h
    by_cases ht : data.Type_ = ""
    · simp [ht] at h
    · simp only [ht, if_false] at h
      cases hc : checkType T data.Type_ x with
      | some e => simp [hc] at h
      | none =>
        simp only [hc] at h
        cases ha : data.Attributes with
        | none =>
          simp only [ha] at h
          exact ⟨f, x, rfl, h⟩
        | some attrs =>
          simp only [ha] at h
          cases hj : T.jsonUnmarshal attrs x with
          | mk t err =>
            cases err with
            | some e => simp [hj] at h
            | none =>
              simp only [hj] at h
              exact ⟨f, t, rfl, h⟩

theorem setDataIntoTarget_GetID {ε : Type} (E : GoType ε) (hlaw : SetIDLaw E) (data : Data)
    (x x1 : ε) (h : setDataIntoTarget E data x = (x1, none)) : E.GetID x1 = some data.ID := by
  obtain ⟨f, a, hf, ha⟩ := setDataIntoTarget_ok_SetID E data x x1 h
  exact hlaw f hf _ _ _ ha

theorem slotIDs_snoc {ε : Type} (E : GoType ε) (old : List ε) (rs : List Data) (r : Data) :
    slotIDs E old (rs ++ [r]) =
      if some r.ID ∈ slotIDs E old rs then slotIDs E old rs
      else slotIDs E old rs ++ [some r.ID] := by
  simp [slotIDs, List.foldl_append]

theorem slotIDs_extends {ε : Type} (E : GoType ε) (old : List ε) (rs : List Data) :
    ∃ tail, slotIDs E old rs = old.map E.GetID ++ tail := by
  induction rs using List.reverseRecOn with
  | nil => exact ⟨[], by simp [slotIDs]⟩
  | append_singleton rs r ih =>
    obtain ⟨tail, ht⟩ := ih
    rw [slotIDs_snoc]
    split
    · exact ⟨tail, ht⟩
    · exact ⟨tail ++ [some r.ID], by rw [ht, List.append_assoc]⟩

theorem slotIDs_length_le {ε : Type} (E : GoType ε) (old : List ε) (rs : List Data) :
    old.length ≤ (slotIDs E old rs).length := by
  obtain ⟨tail, ht⟩ := slotIDs_extends E old rs
  rw [ht]; simp

theorem slotIDs_getElem?_old {ε : Type} (E : GoType ε) (old : List ε) (rs : List Data)
    (i : Nat) (x : ε) (hx : old[i]? = some x) :
    (slotIDs E old rs)[i]? = some (E.GetID x) := by
  obtain ⟨tail, ht⟩ := slotIDs_extends E old rs
  have hi : i < old.length := by
    rcases List.getElem?_eq_some.mp hx with ⟨h, _⟩; exact h
  rw [ht, List.getElem?_append_left (by simpa using hi)]
  simp [hx]

theorem mem_slotIDs {ε : Type} (E : GoType ε) (old : List ε) (rs : List Data) (r : Data)
    (hr : r ∈ rs) : some r.ID ∈ slotIDs E old rs := by
  induction rs using List.reverseRecOn with
  | nil => simp at hr
  | append_singleton rs a ih =>
    rw [slotIDs_snoc]
    rcases List.mem_append.mp hr with h | h
    · have := ih h
      split
      · exact this
      · exact List.mem_append_left _ this
    · have hra : r = a := by simpa using h
      subst hra
      split
      · assumption
      · simp

theorem applyAll_snoc {ε : Type} (E : GoType ε) (x : ε) (rs : List Data) (r : Data) :
    applyAll E x (rs ++ [r]) = (setDataIntoTarget E r (applyAll E x rs)).1 := by
  simp [applyAll, List.foldl_append]

/-- What a step that ends without an error does to the working value. -/
theorem step_value {ε : Type} (E : GoType ε) (w w1 : Work ε) (r : Data)
    (h : step E w r = (w1, none)) :
    (∃ i x x1, scan E r.ID w.value = .ok (some i) ∧ w.value[i]? = some x ∧
        setDataIntoTarget E r x = (x1, none) ∧ w1.value = w.value.set i x1) ∨
    (∃ x1, scan E r.ID w.value = .ok none ∧
        setDataIntoTarget E r E.zero = (x1, none) ∧ w1.value = w.value ++ [x1]) := by
  unfold step at h
  cases hs : scan E r.ID w.value with
  | error e => simp [hs] at h
  | ok res =>
    cases res with
    | some i =>
      obtain ⟨x, hx, _, _⟩ := scan_some_spec E r.ID w.value i hs
      simp only [hs, hx, Prod.mk.injEq] at h
      obtain ⟨hw, herr⟩ := h
      left
      refine ⟨i, x, (setDataIntoTarget E r x).1, rfl, hx, ?_, ?_⟩
      · exact Prod.ext rfl herr
      · rw [← hw]
    | none =>
      simp only [hs] at h
      right
      cases hr : setDataIntoTarget E r E.zero with
      | mk x err =>
        cases err with
        | some e => simp [hr] at h
        | none =>
          simp only [hr, Prod.mk.injEq, and_true] at h
          subst h
          refine ⟨x, rfl, rfl, ?_⟩
          unfold Work.append; split <;> rfl

theorem loop_value_spec {ε : Type} (E : GoType ε) (hlaw : SetIDLaw E) (w0 : Work ε) :
    ∀ (rs : List Data) (w1 : Work ε), loop E w0 rs = (w1, none) →
      w1.value.map E.GetID = slotIDs E w0.value rs ∧
      ∀ k, k < (slotIDs E w0.value rs).length →
        w1.value[k]? = some (applyAll E ((w0.value[k]?).getD E.zero)
          (rs.filter (fun r => decide (slotOf r.ID (slotIDs E w0.value rs) = k)))) := by
  intro rs
  induction rs using List.reverseRecOn with
  | nil =>
    intro w1 h
    simp only [loop, Prod.mk.injEq, and_true] at h
    subst h
    refine ⟨by simp [slotIDs], ?_⟩
    intro k hk
    have hk1 : k < w0.value.length := by simpa [slotIDs] using hk
    simp [applyAll, List.getElem?_eq_getElem hk1]
  | append_singleton rs r ih =>
    intro w1 h
    rw [loop_snoc] at h
    cases hl : loop E w0 rs with
    | mk wm err =>
      cases err with
      | some e => simp [hl] at h
      | none =>
        simp only [hl] at h
        obtain ⟨hK, hI⟩ := ih wm hl
        have hlen : wm.value.length = (slotIDs E w0.value rs).length := by
          rw [← hK]; simp
        have hfilter : ∀ (K1 : List (Option String)) (k : Nat),
            rs.filter (fun a => decide (slotOf a.ID (slotIDs E w0.value rs ++ K1) = k)) =
            rs.filter (fun a => decide (slotOf a.ID (slotIDs E w0.value rs) = k)) := by
          intro K1 k
          apply List.filter_congr
          intro a ha
          rw [slotOf_append_of_mem _ _ _ (mem_slotIDs E w0.value rs a ha)]
        rcases step_value E wm w1 r h with ⟨i, x, x1, hs, hx, hsd, hv⟩ | ⟨x1, hs, hsd, hv⟩
        · obtain ⟨hmem, hi⟩ := scan_some_slotOf E r.ID wm.value i hs
          rw [hK] at hmem hi
          have hg : E.GetID x1 = some r.ID := setDataIntoTarget_GetID E hlaw r x x1 hsd
          have hKi : (slotIDs E w0.value rs)[i]? = some (some r.ID) := by
            rw [hi]; exact slotOf_getElem? _ _ hmem
          have hilt : i < wm.value.length := by
            rcases List.getElem?_eq_some.mp hx with ⟨hh, _⟩; exact hh
          rw [slotIDs_snoc, if_pos hmem]
          refine ⟨?_, ?_⟩
          · rw [hv, List.map_set, hK, hg]
            apply List.ext_getElem?
            intro n
            by_cases hn : i = n
            · subst hn
              rw [List.getElem?_set_self (by rw [← hlen]; exact hilt), hKi]
            · rw [List.getElem?_set_ne hn]
          · intro k hk
            rw [hv, List.filter_append]
            by_cases hki : i = k
            · subst hki
              rw [List.getElem?_set_self hilt]
              have hp : List.filter
                  (fun a => decide (slotOf a.ID (slotIDs E w0.value rs) = i)) [r] = [r] := by
                simp [hi]
              rw [hp, applyAll_snoc]
              have hxI := hI i hk
              rw [hx] at hxI
              rw [← Option.some.inj hxI, hsd]
            · rw [List.getElem?_set_ne hki]
              have hp : List.filter
                  (fun a => decide (slotOf a.ID (slotIDs E w0.value rs) = k)) [r] = [] := by
                simp only [List.filter_cons, List.filter_nil]
                rw [← hi]; simp [hki]
              rw [hp, List.append_nil]
              exact hI k hk
        · have hnot : some r.ID ∉ slotIDs E w0.value rs := by
            rw [← hK]; exact scan_none_not_mem E r.ID wm.value hs
          have hg : E.GetID x1 = some r.ID := setDataIntoTarget_GetID E hlaw r _ x1 hsd
          rw [slotIDs_snoc, if_neg hnot]
          refine ⟨?_, ?_⟩
          · rw [hv, List.map_append, hK]; simp [hg]
          · intro k hk
            rw [hv, List.filter_append, hfilter]
            have hslot : slotOf r.ID (slotIDs E w0.value rs ++ [some r.ID]) =
                (slotIDs E w0.value rs).length := slotOf_append_of_not_mem _ _ hnot
            by_cases hkl : k < (slotIDs E w0.value rs).length
            · rw [List.getElem?_append_left (by rw [hlen]; exact hkl)]
              have hp : List.filter (fun a => decide (slotOf a.ID
                  (slotIDs E w0.value rs ++ [some r.ID]) = k)) [r] = [] := by
                simp only [List.filter_cons, List.filter_nil]
                rw [hslot]
                have : ¬ (slotIDs E w0.value rs).length = k := by omega
                simp [this]
              rw [hp, List.append_nil]
              exact hI k hkl
            · have hkeq : k = (slotIDs E w0.value rs).length := by
                simp only [List.length_append, List.length_singleton] at hk
                omega
              subst hkeq
              have hp : List.filter (fun a => decide (slotOf a.ID
                  (slotIDs E w0.value rs ++ [some r.ID]) = (slotIDs E w0.value rs).length)) [r]
                  = [r] := by
                simp [hslot]
              have hq : rs.filter (fun a => decide (slotOf a.ID (slotIDs E w0.value rs) =
                  (slotIDs E w0.value rs).length)) = [] := by
                rw [List.filter_eq_nil_iff]
                intro a ha
                have := (slotOf_lt_length a.ID _).mpr (mem_slotIDs E w0.value rs a ha)
                simp only [decide_eq_true_eq]
                omega
              rw [hp, hq, List.nil_append]
              have hz : w0.value[(slotIDs E w0.value rs).length]? = none := by
                rw [List.getElem?_eq_none_iff]
                exact slotIDs_length_le E w0.value rs
              rw [hz, ← hlen, List.getElem?_concat_length]
              simp [applyAll, hsd]

/-- Records with fresh, pairwise distinct identifiers are all appended. -/
theorem loop_fresh {ε : Type} (E : GoType ε) (hlaw : SetIDLaw E) :
    ∀ (rs : List Data) (w0 w1 : Work ε), loop E w0 rs = (w1, none) →
      (∀ r ∈ rs, some r.ID ∉ w0.value.map E.GetID) → (rs.map (fun r => r.ID)).Nodup →
      w1.value = w0.value ++ rs.map (fun r => (setDataIntoTarget E r E.zero).1) ∧
      ∀ r ∈ rs, E.GetID (setDataIntoTarget E r E.zero).1 = some r.ID := by
  intro rs
  induction rs with
  | nil =>
    intro w0 w1 h _ _
    simp only [loop, Prod.mk.injEq, and_true] at h
    subst h
    simp
  | cons r rs ih =>
    intro w0 w1 h hfresh hnodup
    simp only [loop] at h
    cases hst : step E w0 r with
    | mk wm err =>
      cases err with
      | some e => simp [hst] at h
      | none =>
        simp only [hst] at h
        rcases step_value E w0 wm r hst with ⟨i, x, x1, hs, _, _, _⟩ | ⟨x1, hs, hsd, hv⟩
        · exact absurd (scan_some_slotOf E r.ID w0.value i hs).1
            (hfresh r (List.mem_cons_self _ _))
        · have hg : E.GetID x1 = some r.ID := setDataIntoTarget_GetID E hlaw r _ x1 hsd
          have hx1 : (setDataIntoTarget E r E.zero).1 = x1 := by rw [hsd]
          simp only [List.map_cons, List.nodup_cons, List.mem_map, not_exists, not_and] at hnodup
          obtain ⟨hnot, hnd⟩ := hnodup
          have hfresh1 : ∀ a ∈ rs, some a.ID ∉ wm.value.map E.GetID := by
            intro a ha hmem
            rw [hv, List.map_append, List.mem_append] at hmem
            rcases hmem with hm | hm
            · exact hfresh a (List.mem_cons_of_mem _ ha) hm
            · simp only [List.map_cons, List.map_nil, List.mem_singleton, hg,
                Option.some.injEq] at hm
              exact hnot a ha hm
          obtain ⟨hval, hids⟩ := ih wm w1 h hfresh1 hnd
          refine ⟨?_, ?_⟩
          · rw [hval, hv, List.map_cons, hx1, List.append_assoc]; rfl
          · intro a ha
            rcases List.mem_cons.mp ha with rfl | ha1
            · rw [hx1]; exact hg
            · exact hids a ha1

/-! ## What the caller sees while the loop runs -/

theorem step_caller {ε : Type} (E : GoType ε) (w w1 : Work ε) (r : Data) (e : Option GoError)
    (hinv : w.Aliased) (h : step E w r = (w1, e)) :
    w1.Aliased ∧ w1.caller.length = w.caller.length ∧
    ∀ (i : Nat) (x : ε), w.caller[i]? = some x → E.GetID x ≠ some r.ID → w1.caller[i]? = some x := by
  unfold step at h
  cases hs : scan E r.ID w.value with
  | error e1 =>
    simp only [hs, Prod.mk.injEq] at h
    obtain ⟨hw, _⟩ := h
    subst hw
    exact ⟨hinv, rfl, fun i x hx _ => hx⟩
  | ok res =>
    cases res with
    | some i =>
      obtain ⟨x, hx, hgx, _⟩ := scan_some_spec E r.ID w.value i hs
      simp only [hs, hx, Prod.mk.injEq] at h
      obtain ⟨hw, _⟩ := h
      subst hw
      cases hsh : w.shared with
      | false =>
        refine ⟨?_, by simp [hsh], ?_⟩
        · intro hc; simp [hsh] at hc
        · intro j y hy _; simpa [hsh] using hy
      | true =>
        have hal := hinv hsh
        refine ⟨?_, by simp [hsh], ?_⟩
        · intro _ j hj
          simp only [hsh, if_true, List.length_set] at hj ⊢
          by_cases hij : i = j
          · subst hij
            have hiv : i < w.value.length := by
              rcases List.getElem?_eq_some.mp hx with ⟨hh, _⟩; exact hh
            rw [List.getElem?_set_self hiv, List.getElem?_set_self hj]
          · rw [List.getElem?_set_ne hij, List.getElem?_set_ne hij]
            exact hal j hj
        · intro j y hy hgy
          simp only [hsh, if_true]
          by_cases hij : i = j
          · subst hij
            have hjl : i < w.caller.length := by
              rcases List.getElem?_eq_some.mp hy with ⟨hh, _⟩; exact hh
            have hxy : w.value[i]? = w.caller[i]? := hal i hjl
            rw [hx, hy] at hxy
            have : x = y := Option.some.inj hxy
            subst this
            exact absurd hgx hgy
          · rw [List.getElem?_set_ne hij]; exact hy
    | none =>
      simp only [hs] at h
      cases hr : setDataIntoTarget E r E.zero with
      | mk x err =>
        cases err with
        | some e1 =>
          simp only [hr, Prod.mk.injEq] at h
          obtain ⟨hw, _⟩ := h
          subst hw
          exact ⟨hinv, rfl, fun i y hy _ => hy⟩
        | none =>
          simp only [hr, Prod.mk.injEq] at h
          obtain ⟨hw, _⟩ := h
          subst hw
          unfold Work.append
          split
          · refine ⟨?_, rfl, fun i y hy _ => hy⟩
            intro hsh j hj
            have hsh1 : w.shared = true := hsh
            have hal := hinv hsh1 j hj
            have hjv : j < w.value.length := by
              have hc : w.caller[j]? = some w.caller[j] := List.getElem?_eq_getElem hj
              rw [← hal] at hc
              rcases List.getElem?_eq_some.mp hc with ⟨hh, _⟩; exact hh
            show (w.value ++ [x])[j]? = w.caller[j]?
            rw [List.getElem?_append_left hjv]; exact hal
          · refine ⟨?_, rfl, fun i y hy _ => hy⟩
            intro hsh
            simp at hsh

theorem loop_caller {ε : Type} (E : GoType ε) :
    ∀ (rs : List Data) (w w1 : Work ε) (e : Option GoError), w.Aliased →
      loop E w rs = (w1, e) →
      w1.caller.length = w.caller.length ∧
      ∀ (i : Nat) (x : ε), w.caller[i]? = some x → (∀ r ∈ rs, E.GetID x ≠ some r.ID) →
        w1.caller[i]? = some x := by
  intro rs
  induction rs with
  | nil =>
    intro w w1 e _ h
    simp only [loop, Prod.mk.injEq] at h
    obtain ⟨hw, _⟩ := h
    subst hw
    exact ⟨rfl, fun i x hx _ => hx⟩
  | cons r rs ih =>
    intro w w1 e hinv h
    simp only [loop] at h
    cases hst : step E w r with
    | mk wm err =>
      obtain ⟨hal, hlen, hkeep⟩ := step_caller E w wm r err hinv hst
      cases err with
      | some e1 =>
        simp only [hst, Prod.mk.injEq] at h
        obtain ⟨hw, _⟩ := h
        subst hw
        exact ⟨hlen, fun i x hx hall => hkeep i x hx (hall r (List.mem_cons_self _ _))⟩
      | none =>
        simp only [hst] at h
        obtain ⟨hlen1, hkeep1⟩ := ih wm w1 e hal h
        refine ⟨hlen1.trans hlen, ?_⟩
        intro i x hx hall
        exact hkeep1 i x (hkeep i x hx (hall r (List.mem_cons_self _ _)))
          (fun a ha => hall a (List.mem_cons_of_mem _ ha))

/-- One iteration changes an element of the working value only when the GetID of
that element equals the record id. -/
theorem step_value_keep {ε : Type} (E : GoType ε) (w w1 : Work ε) (r : Data)
    (e : Option GoError) (h : step E w r = (w1, e)) :
    w.value.length ≤ w1.value.length ∧
    ∀ (i : Nat) (x : ε), w.value[i]? = some x → E.GetID x ≠ some r.ID →
      w1.value[i]? = some x := by
  unfold step at h
  cases hs : scan E r.ID w.value with
  | error e1 =>
    simp only [hs, Prod.mk.injEq] at h
    obtain ⟨hw, _⟩ := h
    subst hw
    exact ⟨Nat.le_refl _, fun i x hx _ => hx⟩
  | ok res =>
    cases res with
    | some i =>
      obtain ⟨x, hx, hgx, _⟩ := scan_some_spec E r.ID w.value i hs
      simp only [hs, hx, Prod.mk.injEq] at h
      obtain ⟨hw, _⟩ := h
      subst hw
      refine ⟨by simp, ?_⟩
      intro j y hy hgy
      by_cases hij : i = j
      · subst hij
        rw [hx] at hy
        have : x = y := Option.some.inj hy
        subst this
        exact absurd hgx hgy
      · show (w.value.set i _)[j]? = some y
        rw [List.getElem?_set_ne hij]; exact hy
    | none =>
      simp only [hs] at h
      cases hr : setDataIntoTarget E r E.zero with
      | mk x err =>
        cases err with
        | some e1 =>
          simp only [hr, Prod.mk.injEq] at h
          obtain ⟨hw, _⟩ := h
          subst hw
          exact ⟨Nat.le_refl _, fun i y hy _ => hy⟩
        | none =>
          simp only [hr, Prod.mk.injEq] at h
          obtain ⟨hw, _⟩ := h
          subst hw
          have hv : (w.append E x).value = w.value ++ [x] := by
            unfold Work.append; split <;> rfl
          refine ⟨by rw [hv]; simp, ?_⟩
          intro j y hy _
          have hj : j < w.value.length := by
            rcases List.getElem?_eq_some.mp hy with ⟨hh, _⟩; exact hh
          rw [hv, List.getElem?_append_left hj]; exact hy

theorem loop_value_keep {ε : Type} (E : GoType ε) :
    ∀ (rs : List Data) (w w1 : Work ε) (e : Option GoError), loop E w rs = (w1, e) →
      w.value.length ≤ w1.value.length ∧
      ∀ (i : Nat) (x : ε), w.value[i]? = some x → (∀ r ∈ rs, E.GetID x ≠ some r.ID) →
        w1.value[i]? = some x := by
  intro rs
  induction rs with
  | nil =>
    intro w w1 e h
    simp only [loop, Prod.mk.injEq] at h
    obtain ⟨hw, _⟩ := h
    subst hw
    exact ⟨Nat.le_refl _, fun i x hx _ => hx⟩
  | cons r rs ih =>
    intro w w1 e h
    simp only [loop] at h
    cases hst : step E w r with
    | mk wm err =>
      obtain ⟨hlen, hkeep⟩ := step_value_keep E w wm r err hst
      cases err with
      | some e1 =>
        simp only [hst, Prod.mk.injEq] at h
        obtain ⟨hw, _⟩ := h
        subst hw
        exact ⟨hlen, fun i x hx hall => hkeep i x hx (hall r (List.mem_cons_self _ _))⟩
      | none =>
        simp only [hst] at h
        obtain ⟨hlen1, hkeep1⟩ := ih wm w1 e h
        refine ⟨Nat.le_trans hlen hlen1, ?_⟩
        intro i x hx hall
        exact hkeep1 i x (hkeep i x hx (hall r (List.mem_cons_self _ _)))
          (fun a ha => hall a (List.mem_cons_of_mem _ ha))

/-- A loop that ends with an error has run without error up to some record, and
the error is the one of the iteration for that record. -/
theorem loop_error_split {ε : Type} (E : GoType ε) :
    ∀ (rs : List Data) (w w1 : Work ε) (err : GoError), loop E w rs = (w1, some err) →
      ∃ pre r post wm, rs = pre ++ r :: post ∧ loop E w pre = (wm, none) ∧
        step E wm r = (w1, some err) := by
  intro rs
  induction rs with
  | nil => intro w w1 err h; simp [loop] at h
  | cons r rs ih =>
    intro w w1 err h
    simp only [loop] at h
    cases hst : step E w r with
    | mk wm e =>
      cases e with
      | some e1 =>
        simp only [hst, Prod.mk.injEq, Option.some.injEq] at h
        obtain ⟨hw, he⟩ := h
        subst hw; subst he
        exact ⟨[], r, rs, w, rfl, rfl, hst⟩
      | none =>
        simp only [hst] at h
        obtain ⟨pre, a, post, wk, hsplit, hpre, hstep⟩ := ih wm w1 err h
        refine ⟨r :: pre, a, post, wk, by rw [hsplit]; rfl, ?_, hstep⟩
        simp only [loop, hst]
        exact hpre

/-! ## Unmarshal on an array payload and a pointer to a slice -/

theorem Unmarshal_slice_array {α ε : Type} (J : JSONLib) (R : TargetTypes α ε) (bytes : Bytes)
    (doc : Document) (c : DataContainer) (records : List Data) (s : Slice ε)
    (hdoc : J.unmarshalDocument bytes = .ok doc) (hdata : doc.Data = some c)
    (hobj : c.DataObject = none) (harr : c.DataArray = some records) :
    Unmarshal J R bytes (.ptr (.slice s)) =
      (.ptr (.slice (unmarshalArray R.E s records).1), (unmarshalArray R.E s records).2) := by
  simp [Unmarshal, hdoc, hdata, hobj, harr]

theorem aliased_start {ε : Type} (s : Slice ε) :
    Work.Aliased { caller := s.elems, value := s.elems, spare := s.spare, shared := true } := by
  intro _ i _; rfl

/-- C1, as the code has it. When the iteration for some record of an array
payload fails, Unmarshal returns the error of that iteration and the final Set is
not reached: the caller's slice keeps its length and capacity and every element
whose GetID differs from the ids of the records processed up to and including
the failing one. An element that one of these records matched by id was decoded
into through a pointer into the caller's backing array and may have changed. -/
theorem Unmarshal_array_failure {α ε : Type} (J : JSONLib) (R : TargetTypes α ε)
    (bytes : Bytes) (doc : Document) (c : DataContainer) (records : List Data) (s : Slice ε)
    (t1 : Target α ε) (err : GoError)
    (hdoc : J.unmarshalDocument bytes = .ok doc) (hdata : doc.Data = some c)
    (hobj : c.DataObject = none) (harr : c.DataArray = some records)
    (h : Unmarshal J R bytes (.ptr (.slice s)) = (t1, some err)) :
    ∃ (s1 : Slice ε) (pre : List Data) (r : Data) (post : List Data) (wm w1 : Work ε),
      t1 = .ptr (.slice s1) ∧ records = pre ++ r :: post ∧
      loop R.E { caller := s.elems, value := s.elems, spare := s.spare, shared := true } pre
        = (wm, none) ∧
      step R.E wm r = (w1, some err) ∧
      s1.spare = s.spare ∧ s1.elems.length = s.elems.length ∧
      (∀ (i : Nat) (x : ε), s.elems[i]? = some x →
        (∀ a ∈ pre ++ [r], R.E.GetID x ≠ some a.ID) → s1.elems[i]? = some x) ∧
      ((∀ x ∈ s.elems, ∀ a ∈ pre ++ [r], R.E.GetID x ≠ some a.ID) → s1.elems = s.elems) := by
  rw [Unmarshal_slice_array J R bytes doc c records s hdoc hdata hobj harr] at h
  simp only [Prod.mk.injEq] at h
  obtain ⟨ht, he⟩ := h
  cases hl : loop R.E { caller := s.elems, value := s.elems, spare := s.spare, shared := true }
      records with
  | mk w e =>
    cases e with
    | none => simp [unmarshalArray, hl] at he
    | some e1 =>
      have he1 : e1 = err := by simpa [unmarshalArray, hl] using he
      subst he1
      obtain ⟨pre, r, post, wm, hsplit, hpre, hstep⟩ := loop_error_split R.E records _ w e1 hl
      have hrun : loop R.E
          { caller := s.elems, value := s.elems, spare := s.spare, shared := true }
          (pre ++ [r]) = (w, some e1) := by
        rw [loop_snoc, hpre]; exact hstep
      obtain ⟨hlen, hkeep⟩ := loop_caller R.E (pre ++ [r]) _ w (some e1) (aliased_start s) hrun
      have hkeep1 : ∀ (i : Nat) (x : ε), s.elems[i]? = some x →
          (∀ a ∈ pre ++ [r], R.E.GetID x ≠ some a.ID) → w.caller[i]? = some x :=
        fun i x hx hall => hkeep i x hx hall
      refine ⟨{ elems := w.caller, spare := s.spare }, pre, r, post, wm, w, ?_, hsplit, hpre,
        hstep, rfl, hlen, hkeep1, ?_⟩
      · rw [← ht]; simp [unmarshalArray, hl]
      · intro hall
        apply List.ext_getElem?
        intro i
        cases hx : s.elems[i]? with
        | some x => exact hkeep1 i x hx (hall x (List.getElem?_mem hx))
        | none =>
          have hi : s.elems.length ≤ i := List.getElem?_eq_none_iff.mp hx
          have hl2 : w.caller.length = s.elems.length := hlen
          show w.caller[i]? = none
          exact List.getElem?_eq_none_iff.mpr (by omega)

/-- C3, as the code has it. A successful Unmarshal of an array payload into a
collection of length n keeps positions: the result is at least as long and an old
element is unchanged when no record id equals its GetID. For an element type
whose successful SetID makes GetID return the id it was given, moreover: the
result has one element per entry of the slot list (the ids of the old elements,
then the new record ids in order of first arrival); the element at position k is
the old element at k (a zero value for k at or beyond n) with the records whose
id first occurs at slot k decoded into it in document order; an old element is
unchanged when an earlier old element has the same GetID; the elements from n on
are those created for unmatched records, in order of first arrival; and records
with pairwise distinct ids decoded into an empty collection give one element per
record, in input order, with those ids. -/
theorem Unmarshal_array_success {α ε : Type} (J : JSONLib) (R : TargetTypes α ε)
    (bytes : Bytes) (doc : Document) (c : DataContainer) (records : List Data) (s : Slice ε)
    (t1 : Target α ε)
    (hdoc : J.unmarshalDocument bytes = .ok doc) (hdata : doc.Data = some c)
    (hobj : c.DataObject = none) (harr : c.DataArray = some records)
    (h : Unmarshal J R bytes (.ptr (.slice s)) = (t1, none)) :
    ∃ s1 : Slice ε, t1 = .ptr (.slice s1) ∧
      s.elems.length ≤ s1.elems.length ∧
      (∀ (i : Nat) (x : ε), s.elems[i]? = some x →
        (∀ r ∈ records, R.E.GetID x ≠ some r.ID) → s1.elems[i]? = some x) ∧
      (SetIDLaw R.E →
        s1.elems.map R.E.GetID = slotIDs R.E s.elems records ∧
        (∀ k, k < s1.elems.length →
          s1.elems[k]? = some (applyAll R.E ((s.elems[k]?).getD R.E.zero)
            (records.filter
              (fun r => decide (slotOf r.ID (slotIDs R.E s.elems records) = k))))) ∧
        (∀ k, s.elems.length ≤ k → k < s1.elems.length →
          s1.elems[k]? = some (applyAll R.E R.E.zero
            (records.filter
              (fun r => decide (slotOf r.ID (slotIDs R.E s.elems records) = k))))) ∧
        (∀ (i j : Nat) (x y : ε), j < i → s.elems[j]? = some y → s.elems[i]? = some x →
          R.E.GetID y = R.E.GetID x → s1.elems[i]? = some x) ∧
        (s.elems = [] → (records.map (fun r => r.ID)).Nodup →
          s1.elems = records.map (fun r => (setDataIntoTarget R.E r R.E.zero).1) ∧
          s1.elems.map R.E.GetID = records.map (fun r => some r.ID))) := by
  rw [Unmarshal_slice_array J R bytes doc c records s hdoc hdata hobj harr] at h
  simp only [Prod.mk.injEq] at h
  obtain ⟨ht, he⟩ := h
  cases hl : loop R.E { caller := s.elems, value := s.elems, spare := s.spare, shared := true }
      records with
  | mk w e =>
    cases e with
    | some e1 => simp [unmarshalArray, hl] at he
    | none =>
      have hs1 : (unmarshalArray R.E s records).1 = { elems := w.value, spare := w.spare } := by
        simp [unmarshalArray, hl]
      obtain ⟨hle, hkeep⟩ := loop_value_keep R.E records _ w none hl
      simp only at hle hkeep
      refine ⟨{ elems := w.value, spare := w.spare }, by rw [← ht, hs1], hle, hkeep, ?_⟩
      intro hlaw
      obtain ⟨hK, hI⟩ := loop_value_spec R.E hlaw _ records w hl
      simp only at hK hI
      have hlen : w.value.length = (slotIDs R.E s.elems records).length := by
        rw [← hK]; simp
      have hI1 : ∀ k, k < w.value.length →
          w.value[k]? = some (applyAll R.E ((s.elems[k]?).getD R.E.zero)
            (records.filter
              (fun r => decide (slotOf r.ID (slotIDs R.E s.elems records) = k)))) :=
        fun k hk => hI k (by rw [← hlen]; exact hk)
      refine ⟨hK, hI1, ?_, ?_, ?_⟩
      · intro k hk1 hk2
        have hz : s.elems[k]? = none := List.getElem?_eq_none_iff.mpr hk1
        have := hI1 k hk2
        rw [hz] at this
        exact this
      · intro i j x y hji hy hx hsame
        have hi : i < s.elems.length := by
          rcases List.getElem?_eq_some.mp hx with ⟨hh, _⟩; exact hh
        show w.value[i]? = some x
        rw [hI1 i (by omega), hx]
        have hnil : records.filter
            (fun r => decide (slotOf r.ID (slotIDs R.E s.elems records) = i)) = [] := by
          rw [List.filter_eq_nil_iff]
          intro r hr
          simp only [decide_eq_true_eq]
          intro hslot
          have hKi := slotOf_getElem? r.ID _ (mem_slotIDs R.E s.elems records r hr)
          rw [hslot, slotIDs_getElem?_old R.E s.elems records i x hx] at hKi
          have hKj := slotIDs_getElem?_old R.E s.elems records j y hy
          rw [hsame, Option.some.inj hKi] at hKj
          exact slotOf_first r.ID _ j (by rw [hslot]; exact hji) hKj
        rw [hnil]; rfl
      · intro hempty hnodup
        have hfresh : ∀ r ∈ records, some r.ID ∉ List.map R.E.GetID s.elems := by
          intro r _; rw [hempty]; simp
        obtain ⟨hval, hids⟩ := loop_fresh R.E hlaw records _ w hl hfresh hnodup
        simp only [hempty, List.nil_append] at hval
        refine ⟨hval, ?_⟩
        show w.value.map R.E.GetID = _
        rw [hval, List.map_map]
        apply List.map_congr_left
        intro r hr
        exact hids r hr

/-! ## The theorems at concrete inputs -/

theorem pigType_SetIDLaw : SetIDLaw pigType := by
  intro f hf id a a1 h
  have hf1 : f = fun id p => ({ p with ID := id }, none) := by
    have := hf.symm
    simpa [pigType] using this
  subst hf1
  simp only [Prod.mk.injEq, and_true] at h
  subst h
  rfl

/-- C1, the claim fails. Manbearpig 1 of the caller's slice is matched by the
first record and decoded into; the second record has no type, Unmarshal returns
ErrNoType, and the caller's slice is no longer what it was before the call. -/
theorem Unmarshal_array_failure_not_atomic :
    Unmarshal exampleJSON pigTypes failingPayload
        (.ptr (.slice { elems := [pigA, pigB], spare := 0 })) =
      (.ptr (.slice { elems := [{ ID := "1", Moo := mooX }, pigB], spare := 0 }),
        some ErrNoType) ∧
    [({ ID := "1", Moo := mooX } : Pig), pigB] ≠ [pigA, pigB] := by
  decide

/-- The theorem on a failing array payload at the collection of two resources
and the payload whose second record has no type. -/
theorem Unmarshal_array_failure_witness :
    Unmarshal exampleJSON pigTypes failingPayload
        (.ptr (.slice { elems := [pigA, pigB], spare := 0 })) =
      (.ptr (.slice { elems := [{ ID := "1", Moo := mooX }, pigB], spare := 0 }),
        some ErrNoType) ∧
    ∃ (s1 : Slice Pig) (pre : List Data) (r : Data) (post : List Data) (wm w1 : Work Pig),
      (.ptr (.slice { elems := [{ ID := "1", Moo := mooX }, pigB], spare := 0 }) :
          Target Pig Pig) = .ptr (.slice s1) ∧
      failingRecords = pre ++ r :: post ∧
      loop pigType { caller := [pigA, pigB], value := [pigA, pigB], spare := 0, shared := true }
        pre = (wm, none) ∧
      step pigType wm r = (w1, some ErrNoType) ∧
      s1.spare = 0 ∧ s1.elems.length = 2 ∧
      (∀ (i : Nat) (x : Pig), [pigA, pigB][i]? = some x →
        (∀ a ∈ pre ++ [r], pigType.GetID x ≠ some a.ID) → s1.elems[i]? = some x) ∧
      ((∀ x ∈ [pigA, pigB], ∀ a ∈ pre ++ [r], pigType.GetID x ≠ some a.ID) →
        s1.elems = [pigA, pigB]) :=
  ⟨by decide,
    Unmarshal_array_failure exampleJSON pigTypes failingPayload
      (dataDocument { DataObject := none, DataArray := some failingRecords })
      { DataObject := none, DataArray := some failingRecords } failingRecords
      { elems := [pigA, pigB], spare := 0 } _ ErrNoType rfl rfl rfl rfl (by decide)⟩

/-- The theorem on one iteration at a collection of two resources and a record
with the id of the second. -/
theorem step_first_match_or_append_witness :
    step pigType { caller := [pigA, pigB], value := [pigA, pigB], spare := 0, shared := true }
        (attrRecord "manbearpigs" "7" mooX) =
      ({ caller := [pigA, { ID := "7", Moo := mooX }],
         value := [pigA, { ID := "7", Moo := mooX }], spare := 0, shared := true }, none) ∧
    ((∃ x ∈ [pigA, pigB], pigType.GetID x = some "7") →
      ∃ i x, [pigA, pigB][i]? = some x ∧ pigType.GetID x = some "7" ∧
        (∀ j, j < i → ∀ y, [pigA, pigB][j]? = some y → pigType.GetID y ≠ some "7") ∧
        (setDataIntoTarget pigType (attrRecord "manbearpigs" "7" mooX) x).2 = none ∧
        [pigA, ({ ID := "7", Moo := mooX } : Pig)] =
          [pigA, pigB].set i (setDataIntoTarget pigType (attrRecord "manbearpigs" "7" mooX) x).1 ∧
        [pigA, ({ ID := "7", Moo := mooX } : Pig)].length = [pigA, pigB].length) :=
  ⟨by decide,
    (step_first_match_or_append pigType
      { caller := [pigA, pigB], value := [pigA, pigB], spare := 0, shared := true }
      { caller := [pigA, { ID := "7", Moo := mooX }],
        value := [pigA, { ID := "7", Moo := mooX }], spare := 0, shared := true }
      (attrRecord "manbearpigs" "7" mooX) (by decide)).1⟩

/-- C3, the claim fails. The identifier of the frozen resource is not changed by
SetID: the two records have the distinct ids 1 and the empty id, the element
created for the first keeps the empty id, the second record matches it, and the
result has one element instead of two. -/
theorem Unmarshal_array_distinct_ids_one_element :
    Unmarshal exampleJSON frozenTypes distinctPayload
        (.ptr (.slice { elems := [], spare := 0 })) =
      (.ptr (.slice { elems := [{ ID := "", Moo := mooY }], spare := 0 }), none) ∧
    (distinctRecords.map (fun r => r.ID)).Nodup ∧ distinctRecords.length = 2 := by
  decide

/-- The theorem on successful array decoding at a concrete collection: the old
element with id 7 stays and the two new elements follow in input order. -/
theorem Unmarshal_array_success_witness :
    Unmarshal exampleJSON pigTypes distinctPayload
        (.ptr (.slice { elems := [pigB], spare := 0 })) =
      (.ptr (.slice { elems := [pigB, { ID := "1", Moo := mooX }, { ID := "", Moo := mooY }],
                      spare := 0 }), none) ∧
    SetIDLaw pigType ∧
    ∃ s1 : Slice Pig,
      (.ptr (.slice { elems := [pigB, { ID := "1", Moo := mooX }, { ID := "", Moo := mooY }],
                      spare := 0 }) : Target Pig Pig) = .ptr (.slice s1) ∧
      s1.elems[0]? = some pigB ∧
      s1.elems.map pigType.GetID = slotIDs pigType [pigB] distinctRecords :=
  have h := Unmarshal_array_success exampleJSON pigTypes distinctPayload
    (dataDocument { DataObject := none, DataArray := some distinctRecords })
    { DataObject := none, DataArray := some distinctRecords } distinctRecords
    { elems := [pigB], spare := 0 }
    (.ptr (.slice { elems := [pigB, { ID := "1", Moo := mooX }, { ID := "", Moo := mooY }],
                    spare := 0 })) rfl rfl rfl rfl (by decide)
  ⟨by decide, pigType_SetIDLaw,
    h.elim fun s1 hs1 =>
      ⟨s1, hs1.1, hs1.2.2.1 0 pigB rfl (by decide), (hs1.2.2.2 pigType_SetIDLaw).1⟩⟩

/-- C4, the claim fails. The frozen resource implements SetID, the type of the
record is its declared name, attribute decoding and SetID succeed and Unmarshal
returns no error, but GetID of the target is 1 and the id of the record is 9. -/
theorem Unmarshal_single_object_id_not_set :
    Unmarshal exampleJSON frozenTypes singlePayload (.ptr (.obj pigA)) =
      (.ptr (.obj { ID := "1", Moo := mooX }), none) ∧
    frozenType.GetID { ID := "1", Moo := mooX } = some "1" ∧
    singleRecord.ID = "9" ∧
    frozenType.GetID { ID := "1", Moo := mooX } ≠ some singleRecord.ID := by
  decide

/-- The theorem on single-object payloads at Manbearpig and the record with id 9. -/
theorem Unmarshal_single_object_witness :
    Unmarshal exampleJSON pigTypes singlePayload (.ptr (.obj pigA)) =
      (.ptr (.obj { ID := "9", Moo := mooX }), none) ∧
    pigType.GetID { ID := "9", Moo := mooX } = some "9" :=
  have h := Unmarshal_single_object exampleJSON pigTypes singlePayload
    (dataDocument { DataObject := some singleRecord, DataArray := none })
    { DataObject := some singleRecord, DataArray := none } singleRecord
    pigA { ID := "1", Moo := mooX } { ID := "9", Moo := mooX }
    (fun id p => ({ p with ID := id }, none)) rfl rfl rfl (by decide) rfl rfl rfl rfl
  ⟨h.2.1, h.2.2 (fun _ _ _ hf => by
    simp only [Prod.mk.injEq, and_true] at hf
    subst hf
    rfl)⟩

/-- C5, the claim fails. The declared name of the target is manbearpigs. A
record without type differs from it, and setDataIntoTarget and Unmarshal fail
with ErrNoType, a message that does not hold the declared name; and a record of
type manbearpigs whose attributes the decoder rejects fails although the names
are equal. -/
theorem setDataIntoTarget_fails_without_mismatch_message :
    pigType.getStructType pigA = .ok "manbearpigs" ∧
    Unmarshal exampleJSON3 pigTypes noTypePayload (.ptr (.obj pigA)) =
      (.ptr (.obj pigA), some "invalid record, no type was specified") ∧
    setDataIntoTarget pigType (bareRecord "" "9") pigA =
      (pigA, some "invalid record, no type was specified") ∧
    ¬ ("manbearpigs".data <:+: "invalid record, no type was specified".data) ∧
    setDataIntoTarget pigType (attrRecord "manbearpigs" "9" []) pigA =
      (pigA, some "unexpected end of JSON input") :=
  ⟨rfl, by decide, by decide, by decide, by decide⟩

/-- The theorem on the type check at Manbearpig and the type name widgets. -/
theorem checkType_fails_iff_mismatch_witness :
    pigType.getStructType pigA = .ok "manbearpigs" ∧
    ((checkType pigType "widgets" pigA).isSome ↔ "widgets" ≠ "manbearpigs") ∧
    checkType pigType "widgets" pigA =
      some "Type widgets in JSON does not match target struct type manbearpigs" ∧
    Unmarshal exampleJSON pigTypes widgetPayload (.ptr (.obj pigA)) =
      (.ptr (.obj pigA),
        some "Type widgets in JSON does not match target struct type manbearpigs") :=
  have h := @checkType_fails_iff_mismatch Pig Pig pigType "widgets" "manbearpigs" pigA rfl
  ⟨rfl, h.1, h.2.1 (by decide),
    ((h.2.2 (by decide) (bareRecord "widgets" "9") rfl).2 exampleJSON pigTypes widgetPayload
      (dataDocument { DataObject := some (bareRecord "widgets" "9"), DataArray := none })
      { DataObject := some (bareRecord "widgets" "9"), DataArray := none } rfl rfl rfl rfl)⟩

/-- The theorem on the array encoding at a container with a record and an array
of two records. -/
theorem MarshalJSON_array_first_witness :
    exampleJSON.encodeData singleRecord = .ok [0x7b, 0x7d] ∧
    DataContainer.MarshalJSON exampleJSON
        { DataObject := some singleRecord, DataArray := some [singleRecord, singleRecord] } =
      .ok [0x5b, 0x7b, 0x7d, 0x2c, 0x7b, 0x7d, 0x5d] :=
  ⟨rfl,
    (MarshalJSON_array_first exampleJSON).2.1 (some singleRecord) singleRecord singleRecord
      [0x7b, 0x7d] [0x7b, 0x7d] rfl rfl⟩

/-- C6, the claim fails. FisherBoy has no SetID: for a record with an empty type
setDataIntoTarget returns ErrInterface, which is not ErrNoType. -/
theorem setDataIntoTarget_empty_type_ErrInterface :
    (bareRecord "" "1").Type_ = "" ∧
    setDataIntoTarget fisherType (bareRecord "" "1") pigA = (pigA, some ErrInterface) ∧
    ErrInterface ≠ ErrNoType := by
  decide

/-- The theorem on records without type at FisherBoy and at Manbearpig. -/
theorem setDataIntoTarget_empty_type_witness :
    (bareRecord "" "1").Type_ = "" ∧ fisherType.SetID = none ∧ pigType.SetID ≠ none ∧
    setDataIntoTarget fisherType (bareRecord "" "1") pigA = (pigA, some ErrInterface) ∧
    setDataIntoTarget pigType (bareRecord "" "1") pigA = (pigA, some ErrNoType) :=
  ⟨rfl, rfl, by simp [pigType],
    (setDataIntoTarget_empty_type fisherType (bareRecord "" "1") pigA rfl).1 rfl,
    (setDataIntoTarget_empty_type pigType (bareRecord "" "1") pigA rfl).2 (by simp [pigType])⟩

/-- The theorem on array payloads and struct targets at Manbearpig. -/
theorem Unmarshal_array_into_struct_witness :
    exampleJSON.unmarshalDocument failingPayload =
      .ok (dataDocument { DataObject := none, DataArray := some failingRecords }) ∧
    Unmarshal exampleJSON pigTypes failingPayload (.ptr (.obj pigA)) =
      (.ptr (.obj pigA), some "Cannot unmarshal array to struct target testutils.Manbearpig") :=
  ⟨rfl,
    Unmarshal_array_into_struct exampleJSON pigTypes failingPayload
      (dataDocument { DataObject := none, DataArray := some failingRecords })
      { DataObject := none, DataArray := some failingRecords } failingRecords pigA
      rfl rfl rfl rfl⟩

/-- C8, the claim fails. A space followed by the empty object, which the JSON
decoder accepts on its own, is rejected and DataObject is not populated. -/
theorem DataContainer_UnmarshalJSON_leading_space :
    isJSONSpace 0x20 = true ∧
    (exampleJSON.unmarshalData [0x7b, 0x7d] none).2 = none ∧
    DataContainer.UnmarshalJSON exampleJSON { DataObject := none, DataArray := none }
        ([0x20] ++ [0x7b, 0x7d]) =
      ({ DataObject := none, DataArray := none }, some "Invalid json for data array/object") := by
  decide

/-- The theorem on the first byte at a line feed followed by the empty array. -/
theorem DataContainer_UnmarshalJSON_first_byte_witness :
    isJSONSpace 0x0a = true ∧
    DataContainer.UnmarshalJSON exampleJSON { DataObject := none, DataArray := none }
        [0x0a, 0x5b, 0x5d] =
      ({ DataObject := none, DataArray := none }, some "Invalid json for data array/object") :=
  ⟨by decide,
    (DataContainer_UnmarshalJSON_first_byte exampleJSON
      { DataObject := none, DataArray := none } [0x5b, 0x5d]).2.2 0x0a (by decide)⟩

/-- The theorem on the common rule at the payload that holds the digit 1. -/
theorem UnmarshalJSON_same_rule_witness :
    (∃ b rest, ([0x31] : Bytes) = b :: rest ∧ b ≠ 0x7b ∧ b ≠ 0x5b) ∧
    (∃ e, DataContainer.UnmarshalJSON exampleJSON { DataObject := none, DataArray := none }
        [0x31] = ({ DataObject := none, DataArray := none }, some e)) ∧
    (∃ e, RelationshipDataContainer.UnmarshalJSON exampleJSON
        { DataObject := none, DataArray := none } [0x31] =
      ({ DataObject := none, DataArray := none }, some e)) :=
  have hp : ∃ b rest, ([0x31] : Bytes) = b :: rest ∧ b ≠ 0x7b ∧ b ≠ 0x5b :=
    ⟨0x31, [], rfl, by decide, by decide⟩
  ⟨hp,
    (UnmarshalJSON_same_rule exampleJSON { DataObject := none, DataArray := none }
      { DataObject := none, DataArray := none } [0x31]).1 (Or.inr hp)⟩

/-! ## Round trip of the union container -/

theorem startsWith_jsonArray (parts : List Bytes) :
    startsWith (jsonArray parts) [0x7b] = false ∧ startsWith (jsonArray parts) [0x5b] = true := by
  have h : ¬ ((0x7b : Byte) = 0x5b) := by decide
  simp [jsonArray, startsWith, List.isPrefixOf, h]

theorem forall2_of_mapM_ok {α : Type} (enc : α → Except GoError Bytes) :
    ∀ (xs : List α) (parts : List Bytes), xs.mapM enc = .ok parts →
      List.Forall₂ (fun x p => enc x = .ok p) xs parts := by
  intro xs
  induction xs with
  | nil =>
    intro parts h
    have h0 : ([] : List α).mapM enc = Except.ok [] := rfl
    rw [h0] at h
    rw [← Except.ok.inj h]
    exact List.Forall₂.nil
  | cons a xs ih =>
    intro parts h
    rw [List.mapM_cons] at h
    cases ha : enc a with
    | error e => rw [ha] at h; cases h
    | ok p =>
      cases hxs : xs.mapM enc with
      | error e => rw [ha, hxs] at h; cases h
      | ok ps =>
        rw [ha, hxs] at h
        have hp : parts = p :: ps := (Except.ok.inj h).symm
        subst hp
        exact List.Forall₂.cons ha (ih ps hxs)

theorem fieldOf_names (S : JSONSyntax) :
    fieldOf S "type" = some .type ∧ fieldOf S "id" = some .id ∧
    fieldOf S "attributes" = some .attributes ∧
    fieldOf S "relationships" = some .relationships ∧ fieldOf S "links" = some .links := by
  refine ⟨?_, ?_, ?_, ?_, ?_⟩ <;> simp [fieldOf, dataFieldNames, List.find?]

theorem decodeMembers_append (S : JSONSyntax) :
    ∀ (a b : List (String × Bytes)) (d : Data),
      decodeMembers S d (a ++ b) =
        ((decodeMembers S (decodeMembers S d a).1 b).1,
          match (decodeMembers S d a).2 with
          | some e => some e
          | none => (decodeMembers S (decodeMembers S d a).1 b).2) := by
  intro a
  induction a with
  | nil => intro b d; simp [decodeMembers]
  | cons m a ih =>
    intro b d
    show decodeMembers S d (m :: (a ++ b)) = _
    simp only [decodeMembers]
    rw [ih]
    cases (decodeMember S d m).2 <;> rfl

/-- Members other than type and id, whose nested decoders accept their texts,
leave the type and the id of a record as they are and give no error. -/
theorem decodeMembers_keeps (S : JSONSyntax) :
    ∀ (ms : List (String × Bytes)),
      (∀ m ∈ ms, m.1 = "attributes" ∨
        (m.1 = "relationships" ∧ ∀ cur, (S.decodeRelationships m.2 cur).2 = none) ∨
        (m.1 = "links" ∧ ∀ cur, (S.decodeLinks m.2 cur).2 = none)) →
      ∀ d : Data, (decodeMembers S d ms).2 = none ∧
        (decodeMembers S d ms).1.Type_ = d.Type_ ∧ (decodeMembers S d ms).1.ID = d.ID := by
  intro ms
  obtain ⟨-, -, f3, f4, f5⟩ := fieldOf_names S
  induction ms with
  | nil => intro _ d; simp [decodeMembers]
  | cons m ms ih =>
    intro h d
    have hm := h m (List.mem_cons_self _ _)
    have htl := ih (fun x hx => h x (List.mem_cons_of_mem _ hx))
    obtain ⟨k, v⟩ := m
    simp only [decodeMembers]
    rcases hm with hk | ⟨hk, hv⟩ | ⟨hk, hv⟩
    · simp only at hk
      subst hk
      have hd : decodeMember S d ("attributes", v) = ({ d with Attributes := some v }, none) := by
        simp [decodeMember, f3]
      rw [hd]
      exact htl _
    · simp only at hk hv
      subst hk
      have hd : decodeMember S d ("relationships", v) =
          ({ d with Relationships := (S.decodeRelationships v d.Relationships).1 }, none) := by
        simp [decodeMember, f4, hv]
      rw [hd]
      exact htl _
    · simp only at hk hv
      subst hk
      have hd : decodeMember S d ("links", v) =
          ({ d with Links := (S.decodeLinks v d.Links).1 }, none) := by
        simp [decodeMember, f5, hv]
      rw [hd]
      exact htl _

/-- The members the encoder writes for a record: type, id unless empty, and then
members other than type and id. -/
theorem members_shape (S : JSONSyntax) (d : Data) (ms : List (String × Bytes))
    (hm : Data.members S d = .ok ms) :
    ∃ tl : List (String × Bytes),
      ms = ([("type", S.quote d.Type_)] ++ (if d.ID = "" then [] else [("id", S.quote d.ID)]))
        ++ tl ∧
      ∀ m ∈ tl, m.1 = "attributes" ∨
        (m.1 = "relationships" ∧ ∃ rs t, d.Relationships = some rs ∧
          S.encodeRelationships rs = .ok t ∧ m.2 = t) ∨
        (m.1 = "links" ∧ ∃ l, d.Links = some l ∧ m.2 = S.encodeLinks l) := by
  unfold Data.members at hm
  have hlk : ∀ m ∈ (match d.Links with
      | none => ([] : List (String × Bytes))
      | some l => [("links", S.encodeLinks l)]),
      m.1 = "links" ∧ ∃ l, d.Links = some l ∧ m.2 = S.encodeLinks l := by
    intro m hmem
    cases hl : d.Links with
    | none => rw [hl] at hmem; cases hmem
    | some l =>
      rw [hl] at hmem
      simp only [List.mem_singleton] at hmem
      subst hmem
      exact ⟨rfl, l, rfl, rfl⟩
  generalize (match d.Links with
      | none => ([] : List (String × Bytes))
      | some l => [("links", S.encodeLinks l)]) = links at hm hlk
  generalize (match d.Attributes with
      | none => (Except.ok jsonNull : Except GoError Bytes)
      | some raw =>
        match S.compact raw with
        | .ok t => .ok t
        | .error e => .error ("json: error calling MarshalJSON for type json.RawMessage: " ++ e))
    = attrs at hm
  cases attrs with
  | error e => cases hm
  | ok a =>
    simp only at hm
    cases hr : d.Relationships with
    | none =>
      rw [hr] at hm
      refine ⟨[("attributes", a)] ++ links, ?_, ?_⟩
      · rw [← Except.ok.inj hm]; simp
      · intro m hmem
        rcases List.mem_append.1 hmem with h1 | h1
        · simp only [List.mem_singleton] at h1; subst h1; exact Or.inl rfl
        · exact Or.inr (Or.inr (hlk m h1))
    | some rs =>
      rw [hr] at hm
      cases rs with
      | nil =>
        refine ⟨[("attributes", a)] ++ links, ?_, ?_⟩
        · rw [← Except.ok.inj hm]; simp
        · intro m hmem
          rcases List.mem_append.1 hmem with h1 | h1
          · simp only [List.mem_singleton] at h1; subst h1; exact Or.inl rfl
          · exact Or.inr (Or.inr (hlk m h1))
      | cons r rs =>
        simp only at hm
        cases he : S.encodeRelationships (r :: rs) with
        | error e => rw [he] at hm; cases hm
        | ok t =>
          rw [he] at hm
          refine ⟨[("attributes", a)] ++ [("relationships", t)] ++ links, ?_, ?_⟩
          · rw [← Except.ok.inj hm]; simp
          · intro m hmem
            rcases List.mem_append.1 hmem with h1 | h1
            · rcases List.mem_append.1 h1 with h2 | h2
              · simp only [List.mem_singleton] at h2; subst h2; exact Or.inl rfl
              · simp only [List.mem_singleton] at h2; subst h2
                exact Or.inr (Or.inl ⟨rfl, r :: rs, t, rfl, he, rfl⟩)
            · exact Or.inr (Or.inr (hlk m h1))

/-- Decoding the text the encoder wrote for a record into a zero value gives the
type and the id of the record, when the scanner reads the object and the two
strings back and the nested decoders accept the nested texts. -/
theorem decodeRecord_encodeRecord (S : JSONSyntax) (d : Data) (p : Bytes)
    (henc : encodeRecord S d = .ok p)
    (hobj : ∀ ms, Data.members S d = .ok ms → S.scan (jsonObject S ms) = .ok (.object ms))
    (htype : S.scan (S.quote d.Type_) = .ok (.string d.Type_))
    (hid : S.scan (S.quote d.ID) = .ok (.string d.ID))
    (hrel : ∀ rs t, d.Relationships = some rs → S.encodeRelationships rs = .ok t →
      ∀ cur, (S.decodeRelationships t cur).2 = none)
    (hlinks : ∀ l, d.Links = some l → ∀ cur, (S.decodeLinks (S.encodeLinks l) cur).2 = none) :
    (decodeRecord S p zeroData).2 = none ∧ (decodeRecord S p zeroData).1.Type_ = d.Type_ ∧
      (decodeRecord S p zeroData).1.ID = d.ID := by
  obtain ⟨f1, f2, -, -, -⟩ := fieldOf_names S
  unfold encodeRecord at henc
  cases hm : Data.members S d with
  | error e => rw [hm] at henc; cases henc
  | ok ms =>
    rw [hm] at henc
    have hp : p = jsonObject S ms := (Except.ok.inj henc).symm
    subst hp
    have hscan := hobj ms hm
    simp only [decodeRecord, hscan]
    obtain ⟨tl, hms, htl⟩ := members_shape S d ms hm
    have hkeep := decodeMembers_keeps S tl (by
      intro m hmem
      rcases htl m hmem with h1 | ⟨h1, rs, t, h2, h3, h4⟩ | ⟨h1, l, h2, h3⟩
      · exact Or.inl h1
      · exact Or.inr (Or.inl ⟨h1, by rw [h4]; exact hrel rs t h2 h3⟩)
      · exact Or.inr (Or.inr ⟨h1, by rw [h3]; exact hlinks l h2⟩))
    have hhead : decodeMembers S zeroData
        ([("type", S.quote d.Type_)] ++ (if d.ID = "" then [] else [("id", S.quote d.ID)])) =
        ({ zeroData with Type_ := d.Type_, ID := d.ID }, none) := by
      by_cases hi : d.ID = ""
      · simp [hi, decodeMembers, decodeMember, f1, decodeStringField, htype, zeroData]
      · simp [hi, decodeMembers, decodeMember, f1, f2, decodeStringField, htype, hid, zeroData]
    rw [hms, decodeMembers_append, hhead]
    obtain ⟨k1, k2, k3⟩ := hkeep { zeroData with Type_ := d.Type_, ID := d.ID }
    exact ⟨k1, k2, k3⟩

/-- Decoding the texts the encoder wrote for a list of records, each into a zero
value, gives as many records with the same type and id in each position. -/
theorem decodeElems_encodeRecord (S : JSONSyntax) :
    ∀ (xs : List Data) (parts : List Bytes),
      List.Forall₂ (fun x p => encodeRecord S x = .ok p) xs parts →
      (∀ d ∈ xs, ∀ ms, Data.members S d = .ok ms →
        S.scan (jsonObject S ms) = .ok (.object ms)) →
      (∀ d ∈ xs, S.scan (S.quote d.Type_) = .ok (.string d.Type_) ∧
        S.scan (S.quote d.ID) = .ok (.string d.ID)) →
      (∀ d ∈ xs, ∀ rs t, d.Relationships = some rs → S.encodeRelationships rs = .ok t →
        ∀ cur, (S.decodeRelationships t cur).2 = none) →
      (∀ d ∈ xs, ∀ l, d.Links = some l →
        ∀ cur, (S.decodeLinks (S.encodeLinks l) cur).2 = none) →
      (decodeElems S [] parts).2 = none ∧
      (decodeElems S [] parts).1.map (fun d => (d.Type_, d.ID)) =
        xs.map (fun d => (d.Type_, d.ID)) := by
  intro xs parts h
  induction h with
  | nil => intro _ _ _ _; simp [decodeElems]
  | @cons x p xs ps hx _ ih =>
    intro hobj hstr hrel hlinks
    obtain ⟨r1, r2, r3⟩ := decodeRecord_encodeRecord S x p hx (hobj x (List.mem_cons_self _ _))
      (hstr x (List.mem_cons_self _ _)).1 (hstr x (List.mem_cons_self _ _)).2
      (hrel x (List.mem_cons_self _ _)) (hlinks x (List.mem_cons_self _ _))
    obtain ⟨i1, i2⟩ := ih (fun d hd => hobj d (List.mem_cons_of_mem _ hd))
      (fun d hd => hstr d (List.mem_cons_of_mem _ hd))
      (fun d hd => hrel d (List.mem_cons_of_mem _ hd))
      (fun d hd => hlinks d (List.mem_cons_of_mem _ hd))
    simp only [decodeElems, List.headD_nil, List.tail_nil, r1, i1, List.map_cons, r2, r3, i2]
    exact ⟨trivial, trivial⟩

/-- C11, as the code has it. The record encoder and the slice decoder are those
of encoding/json for the Data struct, written out from its struct tags over the
scanner of the library. When MarshalJSON succeeds on a container whose DataArray
is not nil, and the scanner reads the texts the encoder wrote (the array, each
record object, the type and id strings) as what was written and the nested
decoders accept the nested texts, then UnmarshalJSON of the text into a fresh
container succeeds, leaves DataObject nil and gives a DataArray that is not nil,
has the same length and has the same type and id in each position; for length
zero the text is the empty array and the decoded DataArray is empty. -/
theorem MarshalJSON_UnmarshalJSON_array (S : JSONSyntax) (J : JSONLib) (o : Option Data)
    (xs : List Data) (bytes : Bytes)
    (henc : DataContainer.MarshalJSON (structJSON S J) { DataObject := o, DataArray := some xs }
      = .ok bytes)
    (harr : ∀ parts, xs.mapM (encodeRecord S) = .ok parts →
      S.scan (jsonArray parts) = .ok (.array parts))
    (hobj : ∀ d ∈ xs, ∀ ms, Data.members S d = .ok ms →
      S.scan (jsonObject S ms) = .ok (.object ms))
    (hstr : ∀ d ∈ xs, S.scan (S.quote d.Type_) = .ok (.string d.Type_) ∧
      S.scan (S.quote d.ID) = .ok (.string d.ID))
    (hrel : ∀ d ∈ xs, ∀ rs t, d.Relationships = some rs → S.encodeRelationships rs = .ok t →
      ∀ cur, (S.decodeRelationships t cur).2 = none)
    (hlinks : ∀ d ∈ xs, ∀ l, d.Links = some l →
      ∀ cur, (S.decodeLinks (S.encodeLinks l) cur).2 = none) :
    ∃ ys, DataContainer.UnmarshalJSON (structJSON S J) { DataObject := none, DataArray := none }
        bytes = ({ DataObject := none, DataArray := some ys }, none) ∧
      ys.length = xs.length ∧
      (∀ i : Nat, (ys[i]?).map (fun d => (d.Type_, d.ID)) =
        (xs[i]?).map (fun d => (d.Type_, d.ID))) ∧
      (xs = [] → bytes = [0x5b, 0x5d] ∧ ys = []) := by
  have hne : (some xs : Option (List Data)) ≠ none := by simp
  simp only [DataContainer.MarshalJSON, hne, if_true, jsonMarshalSlice, structJSON] at henc
  cases hm : xs.mapM (encodeRecord S) with
  | error e => rw [hm] at henc; cases henc
  | ok parts =>
    rw [hm] at henc
    have hb : bytes = jsonArray parts := (Except.ok.inj henc).symm
    subst hb
    obtain ⟨hs1, hs2⟩ := startsWith_jsonArray parts
    have hsc := harr parts hm
    obtain ⟨e1, e2⟩ := decodeElems_encodeRecord S xs parts
      (forall2_of_mapM_ok _ xs parts hm) hobj hstr hrel hlinks
    refine ⟨(decodeElems S [] parts).1, ?_, ?_, ?_, ?_⟩
    · simp [DataContainer.UnmarshalJSON, hs1, hs2, structJSON, decodeRecords, hsc, e1]
    · have := congrArg List.length e2
      simpa using this
    · intro i
      have := congrArg (fun l => l[i]?) e2
      simpa using this
    · intro hxs
      subst hxs
      have h0 : ([] : List Data).mapM (encodeRecord S) = Except.ok [] := rfl
      rw [h0] at hm
      have hparts : parts = [] := (Except.ok.inj hm).symm
      subst hparts
      exact ⟨rfl, rfl⟩

/-! ## The single-record path, continued -/

/-- C12, as the code has it. For a record that passes the interface, type
presence and type match checks: without attributes the result of
setDataIntoTarget is exactly SetID(record id) applied to the prior target; with
attributes whose decoding succeeds it is SetID(record id) applied to the
attribute-decoded target; with attributes whose decoding fails the decode error
is returned with the target as the decoder left it and SetID is not called. When
a successful SetID makes GetID return the id it was given, a successful call
leaves GetID equal to the record id, whatever the attributes wrote. -/
theorem setDataIntoTarget_SetID_last {α : Type} (T : GoType α) (data : Data) (target : α)
    (f : String → α → α × Option GoError)
    (hset : T.SetID = some f) (htype : data.Type_ ≠ "")
    (hname : T.getStructType target = .ok data.Type_) :
    (data.Attributes = none → setDataIntoTarget T data target = f data.ID target) ∧
    (∀ attrs t, data.Attributes = some attrs → T.jsonUnmarshal attrs target = (t, none) →
      setDataIntoTarget T data target = f data.ID t) ∧
    (∀ attrs t e, data.Attributes = some attrs → T.jsonUnmarshal attrs target = (t, some e) →
      setDataIntoTarget T data target = (t, some e)) ∧
    (SetIDLaw T → ∀ x1, setDataIntoTarget T data target = (x1, none) →
      T.GetID x1 = some data.ID) := by
  have hpass := setDataIntoTarget_pass T data target f hset htype hname
  refine ⟨?_, ?_, ?_, ?_⟩
  · intro ha
    rw [hpass, ha]
  · intro attrs t ha hj
    rw [hpass, ha]
    simp only [hj]
  · intro attrs t e ha hj
    rw [hpass, ha]
    simp only [hj]
  · intro hlaw x1 hx1
    exact setDataIntoTarget_GetID T hlaw data target x1 hx1

/-! ## The checks of Unmarshal before the record paths -/

/-- C14. Whatever the input bytes and the JSON library are, Unmarshal with a nil
target returns the error target must not be nil, and Unmarshal with a target that
is not a pointer returns the error target must be a ptr. -/
theorem Unmarshal_target_misuse {α ε : Type} (J J2 : JSONLib) (R : TargetTypes α ε)
    (data data2 : Bytes) :
    Unmarshal J R data .nil = (.nil, some "target must not be nil") ∧
    Unmarshal J R data .value = (.value, some "target must be a ptr") ∧
    Unmarshal J R data .nil = Unmarshal J2 R data2 .nil ∧
    Unmarshal J R data .value = Unmarshal J2 R data2 .value :=
  ⟨rfl, rfl, rfl, rfl⟩

/-- C15, as the code has it. When the JSON parser decodes the input into a
Document without error and the Document has no primary data, Unmarshal on a
pointer target fails with the message Source JSON is empty and does not satisfy
the JSONAPI specification! and leaves the target as it was. -/
theorem Unmarshal_no_data {α ε : Type} (J : JSONLib) (R : TargetTypes α ε) (data : Bytes)
    (doc : Document) (p : Pointee α ε)
    (hdoc : J.unmarshalDocument data = .ok doc) (hdata : doc.Data = none) :
    Unmarshal J R data (.ptr p) =
      (.ptr p, some "Source JSON is empty and does not satisfy the JSONAPI specification!") := by
  simp [Unmarshal, hdoc, hdata]

/-- C16. For a single-object payload and a pointer target whose type does not
implement SetID, be it a pointer to a struct or to a collection, Unmarshal fails
with ErrInterface and leaves the target as it was, whatever the record holds. -/
theorem Unmarshal_single_object_no_SetID {α ε : Type} (J : JSONLib) (R : TargetTypes α ε)
    (data : Bytes) (doc : Document) (c : DataContainer) (d : Data)
    (hdoc : J.unmarshalDocument data = .ok doc) (hdata : doc.Data = some c)
    (hobj : c.DataObject = some d) :
    (R.T.SetID = none → ∀ v : α,
      Unmarshal J R data (.ptr (.obj v)) = (.ptr (.obj v), some ErrInterface)) ∧
    (R.S.SetID = none → ∀ s : Slice ε,
      Unmarshal J R data (.ptr (.slice s)) = (.ptr (.slice s), some ErrInterface)) := by
  constructor
  · intro hs v
    simp [Unmarshal, hdoc, hdata, hobj, setDataIntoTarget_noSetID R.T d v hs]
  · intro hs s
    simp [Unmarshal, hdoc, hdata, hobj, setDataIntoTarget_noSetID R.S d s hs]

/-- C17. When the JSON parser rejects the input with an error, Unmarshal on a
pointer target returns that very error and leaves the target as it was, whatever
the types behind the target are. -/
theorem Unmarshal_parse_error {α ε : Type} (J : JSONLib) (R : TargetTypes α ε) (data : Bytes)
    (e : GoError) (p : Pointee α ε) (he : J.unmarshalDocument data = .error e) :
    Unmarshal J R data (.ptr p) = (.ptr p, some e) := by
  simp [Unmarshal, he]

/-- C18, as the code has it. For an Error with an empty ID, GetID returns the
identifier the generator produced (not empty when the generator's is not), while
the id member of the encoding is the ID field, the empty string; for an Error
with a non-empty ID, GetID returns that ID and the encoded id member equals it. -/
theorem Error_GetID_and_encoding (nuidNext : String) (e : Error) :
    (e.ID = "" → e.GetID nuidNext = nuidNext ∧ (nuidNext ≠ "" → e.GetID nuidNext ≠ "") ∧
      e.encodedID = "") ∧
    (e.ID ≠ "" → e.GetID nuidNext = e.ID ∧ e.encodedID = e.ID) := by
  constructor
  · intro h
    simp [Error.GetID, Error.encodedID, h]
  · intro h
    simp [Error.GetID, Error.encodedID, h]

/-- C19. When the data member of the document is the empty array (the container
is what UnmarshalJSON makes of the two bytes of the empty array, which the JSON
decoder turns into an empty slice that is not nil), Unmarshal on a pointer to any
slice returns no error and leaves the slice as it was; the loop over the records
makes no iteration, so nothing of the element type is used. -/
theorem Unmarshal_empty_array {α ε : Type} (J : JSONLib) (R : TargetTypes α ε) (data : Bytes)
    (doc : Document) (c : DataContainer) (s : Slice ε)
    (hdoc : J.unmarshalDocument data = .ok doc) (hdata : doc.Data = some c)
    (hc : DataContainer.UnmarshalJSON J { DataObject := none, DataArray := none }
      [0x5b, 0x5d] = (c, none))
    (hlib : J.unmarshalDataArray [0x5b, 0x5d] none = (some [], none)) :
    c = { DataObject := none, DataArray := some [] } ∧
    Unmarshal J R data (.ptr (.slice s)) = (.ptr (.slice s), none) ∧
    (∀ w : Work ε, loop R.E w [] = (w, none)) := by
  have hcval : c = { DataObject := none, DataArray := some [] } := by
    have h : ¬ ((0x7b : Byte) = 0x5b) := by decide
    simp [DataContainer.UnmarshalJSON, startsWith_cons, h, hlib] at hc
    exact hc.symm
  refine ⟨hcval, ?_, fun w => rfl⟩
  subst hcval
  simp [Unmarshal, hdoc, hdata, unmarshalArray, loop]

/-! ## Records with the same id -/

theorem applyAll_cons {ε : Type} (E : GoType ε) (x : ε) (r : Data) (rs : List Data) :
    applyAll E x (r :: rs) = applyAll E (setDataIntoTarget E r x).1 rs := by
  simp [applyAll]

theorem applyAll_append {ε : Type} (E : GoType ε) (x : ε) (rs rs1 : List Data) :
    applyAll E x (rs ++ rs1) = applyAll E (applyAll E x rs) rs1 := by
  simp [applyAll, List.foldl_append]

theorem filter_two_hits (p : Data → Bool) (pre mid post : List Data) (r1 r2 : Data)
    (h1 : p r1 = true) (h2 : p r2 = true) :
    (pre ++ r1 :: (mid ++ r2 :: post)).filter p =
      pre.filter p ++ r1 :: (mid.filter p ++ r2 :: post.filter p) := by
  simp [List.filter_append, List.filter_cons, h1, h2]

/-- The result of a successful array branch, by position. -/
theorem unmarshalArray_ok_spec {ε : Type} (E : GoType ε) (hlaw : SetIDLaw E) (s s1 : Slice ε)
    (records : List Data) (h : unmarshalArray E s records = (s1, none)) :
    s1.elems.map E.GetID = slotIDs E s.elems records ∧
    ∀ k, k < s1.elems.length →
      s1.elems[k]? = some (applyAll E ((s.elems[k]?).getD E.zero)
        (records.filter (fun r => decide (slotOf r.ID (slotIDs E s.elems records) = k)))) := by
  cases hl : loop E { caller := s.elems, value := s.elems, spare := s.spare, shared := true }
      records with
  | mk w e =>
    cases e with
    | some e1 => simp [unmarshalArray, hl] at h
    | none =>
      have hs1 : s1 = { elems := w.value, spare := w.spare } := by
        simp only [unmarshalArray, hl, Prod.mk.injEq, and_true] at h
        exact h.symm
      subst hs1
      obtain ⟨hK, hI⟩ := loop_value_spec E hlaw _ records w hl
      simp only at hK hI
      refine ⟨hK, ?_⟩
      intro k hk
      apply hI k
      have hlen : w.value.length = (slotIDs E s.elems records).length := by
        rw [← hK]; simp
      rw [← hlen]; exact hk

/-- The identifiers added for new elements are pairwise distinct and differ from
those of the old elements. -/
theorem slotIDs_new_nodup {ε : Type} (E : GoType ε) (old : List ε) (rs : List Data) :
    ∃ tail, slotIDs E old rs = old.map E.GetID ++ tail ∧ tail.Nodup := by
  induction rs using List.reverseRecOn with
  | nil => exact ⟨[], by simp [slotIDs], List.nodup_nil⟩
  | append_singleton rs r ih =>
    obtain ⟨tail, ht, hnd⟩ := ih
    rw [slotIDs_snoc]
    split
    · exact ⟨tail, ht, hnd⟩
    · rename_i hnot
      refine ⟨tail ++ [some r.ID], by rw [ht, List.append_assoc], ?_⟩
      rw [List.nodup_append]
      refine ⟨hnd, List.nodup_singleton _, ?_⟩
      intro a ha hb
      have hab : a = some r.ID := by simpa using hb
      subst hab
      exact hnot (by rw [ht]; exact List.mem_append_right _ ha)

/-- C13, as the code has it. For an element type whose successful SetID makes
GetID return the id it was given, and an array payload that is decoded without
error and in which a record r1 and a later record r2 carry the same id (the empty
id included): both are decoded into the element at the same position k, the slot
of their id, which holds the matched old element or the zero value created for
the first record with that id; the element at k in the result is that value with
the records of slot k decoded into it in document order, r2 after r1; its GetID
is the shared id; and no two elements beyond the old length have the same GetID,
so the result has at most one new element for an id. -/
theorem Unmarshal_array_duplicate_ids {α ε : Type} (J : JSONLib) (R : TargetTypes α ε)
    (bytes : Bytes) (doc : Document) (c : DataContainer) (records : List Data) (s : Slice ε)
    (t1 : Target α ε) (pre mid post : List Data) (r1 r2 : Data) (hlaw : SetIDLaw R.E)
    (hdoc : J.unmarshalDocument bytes = .ok doc) (hdata : doc.Data = some c)
    (hobj : c.DataObject = none) (harr : c.DataArray = some records)
    (hsplit : records = pre ++ r1 :: (mid ++ r2 :: post)) (hid : r1.ID = r2.ID)
    (h : Unmarshal J R bytes (.ptr (.slice s)) = (t1, none)) :
    ∃ (s1 : Slice ε) (k : Nat), t1 = .ptr (.slice s1) ∧
      k = slotOf r1.ID (slotIDs R.E s.elems records) ∧
      k = slotOf r2.ID (slotIDs R.E s.elems records) ∧
      k < s1.elems.length ∧
      s1.elems[k]? = some
        (applyAll R.E
          (setDataIntoTarget R.E r2
            (applyAll R.E
              (setDataIntoTarget R.E r1
                (applyAll R.E ((s.elems[k]?).getD R.E.zero)
                  (pre.filter
                    (fun r => decide (slotOf r.ID (slotIDs R.E s.elems records) = k))))).1
              (mid.filter
                (fun r => decide (slotOf r.ID (slotIDs R.E s.elems records) = k))))).1
          (post.filter (fun r => decide (slotOf r.ID (slotIDs R.E s.elems records) = k)))) ∧
      (s1.elems[k]?).map R.E.GetID = some (some r1.ID) ∧
      (∀ (i j : Nat) (x y : ε), s.elems.length ≤ i → s.elems.length ≤ j →
        s1.elems[i]? = some x → s1.elems[j]? = some y → R.E.GetID x = R.E.GetID y → i = j) := by
  rw [Unmarshal_slice_array J R bytes doc c records s hdoc hdata hobj harr] at h
  simp only [Prod.mk.injEq] at h
  obtain ⟨ht, he⟩ := h
  have hrun : unmarshalArray R.E s records = ((unmarshalArray R.E s records).1, none) :=
    Prod.ext rfl he
  obtain ⟨hK, hI⟩ := unmarshalArray_ok_spec R.E hlaw s _ records hrun
  have hlen : (unmarshalArray R.E s records).1.elems.length =
      (slotIDs R.E s.elems records).length := by
    rw [← hK]; simp
  have hr1 : r1 ∈ records := by rw [hsplit]; simp
  have hmem : some r1.ID ∈ slotIDs R.E s.elems records := mem_slotIDs R.E s.elems records r1 hr1
  have hk : slotOf r1.ID (slotIDs R.E s.elems records) <
      (unmarshalArray R.E s records).1.elems.length := by
    rw [hlen]; exact (slotOf_lt_length _ _).mpr hmem
  refine ⟨(unmarshalArray R.E s records).1, slotOf r1.ID (slotIDs R.E s.elems records),
    ht.symm, rfl, by rw [hid], hk, ?_, ?_, ?_⟩
  · rw [hI _ hk]
    congr 1
    have hfil := congrArg (List.filter
      (fun r => decide (slotOf r.ID (slotIDs R.E s.elems records) =
        slotOf r1.ID (slotIDs R.E s.elems records)))) hsplit
    rw [hfil, filter_two_hits _ pre mid post r1 r2 (by simp) (by simp [hid]),
      applyAll_append, applyAll_cons, applyAll_append, applyAll_cons]
  · have hget := slotOf_getElem? r1.ID _ hmem
    have hmap := List.getElem?_map R.E.GetID (unmarshalArray R.E s records).1.elems
      (slotOf r1.ID (slotIDs R.E s.elems records))
    rw [hK, hget] at hmap
    exact hmap.symm
  · obtain ⟨tail, htail, hnd⟩ := slotIDs_new_nodup R.E s.elems records
    have hidx : ∀ (i : Nat) (x : ε), s.elems.length ≤ i →
        (unmarshalArray R.E s records).1.elems[i]? = some x →
        tail[i - s.elems.length]? = some (R.E.GetID x) := by
      intro i x hi hx
      have h1 : ((unmarshalArray R.E s records).1.elems.map R.E.GetID)[i]? =
          some (R.E.GetID x) := by
        rw [List.getElem?_map, hx]; rfl
      rw [hK, htail, List.getElem?_append_right (by simpa using hi)] at h1
      simpa using h1
    intro i j x y hi hj hx hy hxy
    have h1 := hidx i x hi hx
    have h2 := hidx j y hj hy
    rw [hxy] at h1
    have hnd1 := List.nodup_iff_getElem?_ne_getElem?.mp hnd
    by_contra hne
    have hj1 : j - s.elems.length < tail.length := by
      rcases List.getElem?_eq_some.mp h2 with ⟨hh, _⟩; exact hh
    have hi1 : i - s.elems.length < tail.length := by
      rcases List.getElem?_eq_some.mp h1 with ⟨hh, _⟩; exact hh
    rcases Nat.lt_or_gt_of_ne hne with hlt | hgt
    · exact hnd1 (i - s.elems.length) (j - s.elems.length) (by omega) hj1 (by rw [h1, h2])
    · exact hnd1 (j - s.elems.length) (i - s.elems.length) (by omega) hi1 (by rw [h1, h2])

/-! ## Decoding the same array payload again -/

/-- The scan looks at the elements through GetID only. -/
theorem scan_congr {ε : Type} (E : GoType ε) (id : String) :
    ∀ (l l1 : List ε), l.map E.GetID = l1.map E.GetID → scan E id l = scan E id l1 := by
  intro l
  induction l with
  | nil =>
    intro l1 h
    cases l1 with
    | nil => rfl
    | cons b l1 => simp at h
  | cons a l ih =>
    intro l1 h
    cases l1 with
    | nil => simp at h
    | cons b l1 =>
      simp only [List.map_cons, List.cons.injEq] at h
      obtain ⟨hab, hl⟩ := h
      unfold scan
      rw [hab, ih l1 hl]

theorem scan_append_some {ε : Type} (E : GoType ε) (id : String) (l1 : List ε) :
    ∀ (l : List ε) (i : Nat), scan E id l = .ok (some i) →
      scan E id (l ++ l1) = .ok (some i) := by
  intro l
  induction l with
  | nil => intro i h; simp [scan] at h
  | cons a l ih =>
    intro i h
    rw [List.cons_append]
    unfold scan at h ⊢
    cases hg : E.GetID a with
    | none => simp [hg] at h
    | some g =>
      simp only [hg] at h ⊢
      by_cases hid : id = g
      · simpa [hid] using h
      · simp only [hid, if_false] at h ⊢
        cases hs : scan E id l with
        | error e => simp [hs] at h
        | ok r =>
          cases r with
          | none => simp [hs] at h
          | some k =>
            rw [ih k hs]
            simpa [hs] using h

theorem scan_append_none {ε : Type} (E : GoType ε) (id : String) (x : ε)
    (hx : E.GetID x = some id) :
    ∀ l : List ε, scan E id l = .ok none → scan E id (l ++ [x]) = .ok (some l.length) := by
  intro l
  induction l with
  | nil => intro _; simp [scan, hx]
  | cons a l ih =>
    intro h
    rw [List.cons_append]
    unfold scan at h ⊢
    cases hg : E.GetID a with
    | none => simp [hg] at h
    | some g =>
      simp only [hg] at h ⊢
      by_cases hid : id = g
      · simp [hid] at h
      · simp only [hid, if_false] at h ⊢
        cases hs : scan E id l with
        | error e => simp [hs] at h
        | ok r =>
          cases r with
          | some k => simp [hs] at h
          | none =>
            rw [ih hs]
            simp

theorem set_same {ε : Type} (l : List ε) (i : Nat) (x : ε) (h : l[i]? = some x) :
    l.set i x = l := by
  apply List.ext_getElem?
  intro n
  by_cases hn : i = n
  · subst hn
    have hi : i < l.length := by
      rcases List.getElem?_eq_some.mp h with ⟨hh, _⟩; exact hh
    rw [List.getElem?_set_self hi, h]
  · rw [List.getElem?_set_ne hn]

/-- After a successful run over records with pairwise distinct ids, every record
of the run is settled in the final working value. -/
theorem loop_settled {ε : Type} (E : GoType ε) (hlaw : SetIDLaw E) (hidem : DecodeIdempotent E)
    (w0 : Work ε) :
    ∀ (rs : List Data) (w1 : Work ε), loop E w0 rs = (w1, none) →
      (rs.map (fun r => r.ID)).Nodup → ∀ r ∈ rs, Settled E w1.value r := by
  intro rs
  induction rs using List.reverseRecOn with
  | nil => intro w1 _ _ r hr; simp at hr
  | append_singleton rs a ih =>
    intro w1 h hnodup r hr
    rw [loop_snoc] at h
    cases hl : loop E w0 rs with
    | mk wm err =>
      cases err with
      | some e => simp [hl] at h
      | none =>
        simp only [hl] at h
        rw [List.map_append, List.nodup_append] at hnodup
        obtain ⟨hnd, _, hdisj⟩ := hnodup
        have hfresh : ∀ b ∈ rs, b.ID ≠ a.ID := by
          intro b hb hba
          exact hdisj (List.mem_map.mpr ⟨b, hb, rfl⟩) (by simp [hba])
        have hprev := ih wm hl hnd
        rcases step_value E wm w1 a h with ⟨i, x, x1, hs, hx, hsd, hv⟩ | ⟨x1, hs, hsd, hv⟩
        · have hg : E.GetID x1 = some a.ID := setDataIntoTarget_GetID E hlaw a x x1 hsd
          obtain ⟨x0, hx0, hgx, _⟩ := scan_some_spec E a.ID wm.value i hs
          have hgx1 : E.GetID x = some a.ID := by
            rw [hx] at hx0
            rw [Option.some.inj hx0]; exact hgx
          have hilt : i < wm.value.length := by
            rcases List.getElem?_eq_some.mp hx with ⟨hh, _⟩; exact hh
          have hmap : w1.value.map E.GetID = wm.value.map E.GetID := by
            rw [hv, List.map_set]
            apply set_same
            rw [List.getElem?_map, hx, hg, ← hgx1]; rfl
          rcases List.mem_append.mp hr with hr1 | hr1
          · obtain ⟨j, y, hsj, hy, hfix⟩ := hprev r hr1
            obtain ⟨y0, hy0, hgy, _⟩ := scan_some_spec E r.ID wm.value j hsj
            have hji : i ≠ j := by
              intro hij
              subst hij
              rw [hx] at hy0
              have hxy : x = y0 := Option.some.inj hy0
              rw [← hxy, hgx1] at hgy
              exact hfresh r hr1 (Option.some.inj hgy).symm
            refine ⟨j, y, ?_, ?_, hfix⟩
            · rw [scan_congr E r.ID w1.value wm.value hmap]; exact hsj
            · rw [hv, List.getElem?_set_ne hji]; exact hy
          · have hra : r = a := by simpa using hr1
            subst hra
            refine ⟨i, x1, ?_, ?_, hidem r x x1 hsd⟩
            · rw [scan_congr E r.ID w1.value wm.value hmap]; exact hs
            · rw [hv, List.getElem?_set_self hilt]
        · have hg : E.GetID x1 = some a.ID := setDataIntoTarget_GetID E hlaw a _ x1 hsd
          rcases List.mem_append.mp hr with hr1 | hr1
          · obtain ⟨j, y, hsj, hy, hfix⟩ := hprev r hr1
            have hjlt : j < wm.value.length := by
              rcases List.getElem?_eq_some.mp hy with ⟨hh, _⟩; exact hh
            refine ⟨j, y, ?_, ?_, hfix⟩
            · rw [hv]; exact scan_append_some E r.ID [x1] wm.value j hsj
            · rw [hv, List.getElem?_append_left hjlt]; exact hy
          · have hra : r = a := by simpa using hr1
            subst hra
            refine ⟨wm.value.length, x1, ?_, ?_, hidem r _ x1 hsd⟩
            · rw [hv]; exact scan_append_none E r.ID x1 hg wm.value hs
            · rw [hv, List.getElem?_concat_length]

/-- A run over records that are all settled succeeds and leaves the working value
and its capacity as they were. -/
theorem loop_of_settled {ε : Type} (E : GoType ε) :
    ∀ (rs : List Data) (w : Work ε), (∀ r ∈ rs, Settled E w.value r) →
      ∃ w1, loop E w rs = (w1, none) ∧ w1.value = w.value ∧ w1.spare = w.spare := by
  intro rs
  induction rs with
  | nil => intro w _; exact ⟨w, rfl, rfl, rfl⟩
  | cons r rs ih =>
    intro w hall
    obtain ⟨i, x, hs, hx, hfix⟩ := hall r (List.mem_cons_self _ _)
    have hstep : step E w r =
        ({ w with value := w.value.set i x,
                  caller := if w.shared then w.caller.set i x else w.caller }, none) := by
      simp only [step, hs, hx, hfix]
    have hval : w.value.set i x = w.value := set_same w.value i x hx
    obtain ⟨w1, hl, hv, hsp⟩ := ih
      { w with value := w.value.set i x,
               caller := if w.shared then w.caller.set i x else w.caller }
      (by
        intro a ha
        show Settled E (w.value.set i x) a
        rw [hval]
        exact hall a (List.mem_cons_of_mem _ ha))
    refine ⟨w1, ?_, ?_, ?_⟩
    · simp only [loop, hstep]; exact hl
    · rw [hv]; exact hval
    · rw [hsp]

/-- C20, as the code has it. For an element type whose successful SetID makes
GetID return the id it was given and whose per-record decode (attributes, then
SetID) succeeds and changes nothing on a value that already is its result, and
for an array payload with pairwise distinct record ids: if Unmarshal succeeds,
Unmarshal of the same payload on the resulting target succeeds as well and leaves
the collection as the first call left it, same length, elements and order. -/
theorem Unmarshal_array_twice {α ε : Type} (J : JSONLib) (R : TargetTypes α ε)
    (bytes : Bytes) (doc : Document) (c : DataContainer) (records : List Data) (s : Slice ε)
    (t1 : Target α ε) (hlaw : SetIDLaw R.E) (hidem : DecodeIdempotent R.E)
    (hdoc : J.unmarshalDocument bytes = .ok doc) (hdata : doc.Data = some c)
    (hobj : c.DataObject = none) (harr : c.DataArray = some records)
    (hnodup : (records.map (fun r => r.ID)).Nodup)
    (h : Unmarshal J R bytes (.ptr (.slice s)) = (t1, none)) :
    Unmarshal J R bytes t1 = (t1, none) := by
  rw [Unmarshal_slice_array J R bytes doc c records s hdoc hdata hobj harr] at h
  simp only [Prod.mk.injEq] at h
  obtain ⟨ht, he⟩ := h
  cases hl : loop R.E { caller := s.elems, value := s.elems, spare := s.spare, shared := true }
      records with
  | mk w e =>
    cases e with
    | some e1 => simp [unmarshalArray, hl] at he
    | none =>
      have hs1 : (unmarshalArray R.E s records).1 = { elems := w.value, spare := w.spare } := by
        simp [unmarshalArray, hl]
      have hsettled := loop_settled R.E hlaw hidem _ records w hl hnodup
      obtain ⟨w2, hl2, hv2, hsp2⟩ := loop_of_settled R.E records
        { caller := w.value, value := w.value, spare := w.spare, shared := true } hsettled
      rw [← ht, hs1,
        Unmarshal_slice_array J R bytes doc c records _ hdoc hdata hobj harr]
      simp only [unmarshalArray, hl2]
      simp only at hv2 hsp2
      rw [hv2, hsp2]

/-! ## The later theorems at concrete inputs -/

/-- The per-record decode of Manbearpig is idempotent. -/
theorem pigType_DecodeIdempotent : DecodeIdempotent pigType := by
  intro r x x1 h
  have hset : pigType.SetID = some (fun id p => ({ p with ID := id }, none)) := rfl
  by_cases ht : r.Type_ = ""
  · rw [setDataIntoTarget_noType pigType r x _ hset ht] at h
    simp at h
  · cases hc : checkType pigType r.Type_ x with
    | some e =>
      rw [setDataIntoTarget_checkType pigType r x _ hset ht e hc] at h
      simp at h
    | none =>
      have hname : r.Type_ = "manbearpigs" := by
        by_contra hne
        simp [checkType, pigType, hne] at hc
      have hpass := fun y => setDataIntoTarget_pass pigType r y _ hset ht
        (by rw [hname]; rfl)
      rw [hpass x] at h
      rw [hpass x1]
      cases ha : r.Attributes with
      | none =>
        simp only [ha, Prod.mk.injEq, and_true] at h ⊢
        subst h
        rfl
      | some attrs =>
        simp only [ha] at h ⊢
        by_cases hat : attrs = []
        · simp [pigType, hat] at h
        · simp only [pigType, hat, if_false, Prod.mk.injEq, and_true] at h ⊢
          subst h
          rfl

/-- C11, the claim fails. The DataArray is not nil and holds one record with a
raw attributes payload that is present and empty; the encoder rejects it, so
MarshalJSON returns an error and there is no text to decode. This holds for the
example library and for the encoder written out from the struct tags. -/
theorem MarshalJSON_array_encode_error :
    ({ DataObject := none, DataArray := some [attrRecord "t" "1" []] } :
      DataContainer).DataArray ≠ none ∧
    DataContainer.MarshalJSON exampleJSON2
        { DataObject := none, DataArray := some [attrRecord "t" "1" []] } =
      .error
        "json: error calling MarshalJSON for type json.RawMessage: unexpected end of JSON input" ∧
    DataContainer.MarshalJSON (structJSON exampleSyntax exampleJSON2)
        { DataObject := none, DataArray := some [attrRecord "t" "1" []] } =
      .error
        "json: error calling MarshalJSON for type json.RawMessage: unexpected end of JSON input" :=
  ⟨by decide, rfl, rfl⟩

/-- The theorem on the round trip at the container that holds a record and a
DataArray of two records, the second without id and attributes: the text is the
array of the two record texts, and decoding it gives two records with the types
and ids of the originals (the absent attributes come back as the text null). -/
theorem MarshalJSON_UnmarshalJSON_array_witness :
    DataContainer.MarshalJSON (structJSON exampleSyntax exampleJSON2)
      { DataObject := some singleRecord, DataArray := some roundTripRecords } =
      .ok ([0x5b] ++ firstText ++ [0x2c] ++ secondText ++ [0x5d]) ∧
    DataContainer.UnmarshalJSON (structJSON exampleSyntax exampleJSON2)
      { DataObject := none, DataArray := none }
      ([0x5b] ++ firstText ++ [0x2c] ++ secondText ++ [0x5d]) =
      ({ DataObject := none, DataArray := some
          [attrRecord "manbearpigs" "1" mooX, attrRecord "manbearpigs" "" jsonNull] }, none) ∧
    ∃ ys, DataContainer.UnmarshalJSON (structJSON exampleSyntax exampleJSON2)
        { DataObject := none, DataArray := none }
        ([0x5b] ++ firstText ++ [0x2c] ++ secondText ++ [0x5d]) =
        ({ DataObject := none, DataArray := some ys }, none) ∧
      ys.length = roundTripRecords.length ∧
      (∀ i : Nat, (ys[i]?).map (fun d => (d.Type_, d.ID)) =
        (roundTripRecords[i]?).map (fun d => (d.Type_, d.ID))) ∧
      (roundTripRecords = [] →
        [0x5b] ++ firstText ++ [0x2c] ++ secondText ++ [0x5d] = [0x5b, 0x5d] ∧ ys = []) :=
  ⟨rfl, rfl,
    MarshalJSON_UnmarshalJSON_array exampleSyntax exampleJSON2 (some singleRecord) roundTripRecords
      ([0x5b] ++ firstText ++ [0x2c] ++ secondText ++ [0x5d]) rfl
      (by
        intro parts h
        have h0 : roundTripRecords.mapM (encodeRecord exampleSyntax) =
            .ok [firstText, secondText] := rfl
        rw [h0] at h
        rw [← Except.ok.inj h]
        rfl)
      (by
        intro d hd ms hms
        simp only [roundTripRecords, List.mem_cons, List.mem_singleton, List.not_mem_nil,
          or_false] at hd
        rcases hd with rfl | rfl
        · have h0 : Data.members exampleSyntax (attrRecord "manbearpigs" "1" mooX) =
              .ok firstMembers := rfl
          rw [h0] at hms
          rw [← Except.ok.inj hms]
          rfl
        · have h0 : Data.members exampleSyntax (bareRecord "manbearpigs" "") =
              .ok secondMembers := rfl
          rw [h0] at hms
          rw [← Except.ok.inj hms]
          rfl)
      (by
        intro d hd
        simp only [roundTripRecords, List.mem_cons, List.mem_singleton, List.not_mem_nil,
          or_false] at hd
        rcases hd with rfl | rfl
        · exact ⟨rfl, rfl⟩
        · exact ⟨rfl, rfl⟩)
      (by intro d _ rs t _ _ cur; rfl)
      (by intro d _ l _ cur; rfl)⟩

/-- C12, the claim fails. The record passes the type checks and carries an
attributes payload that the decoder of the target rejects: setDataIntoTarget
returns the decode error and the target keeps the id 1, while SetID of the record
id applied to the attribute-decoded target has the id 9. -/
theorem setDataIntoTarget_decode_error_no_SetID :
    pigType.getStructType pigA = .ok (attrRecord "manbearpigs" "9" []).Type_ ∧
    setDataIntoTarget pigType (attrRecord "manbearpigs" "9" []) pigA =
      (pigA, some "unexpected end of JSON input") ∧
    pigType.SetID.map (fun f => (f "9" (pigType.jsonUnmarshal [] pigA).1).1) =
      some { ID := "9", Moo := [] } ∧
    pigA ≠ ({ ID := "9", Moo := [] } : Pig) :=
  ⟨rfl, by decide, rfl, by decide⟩

/-- The theorem on the order of decoding and SetID at Manbearpig 1 and the record
with id 9. -/
theorem setDataIntoTarget_SetID_last_witness :
    pigType.getStructType pigA = .ok singleRecord.Type_ ∧
    singleRecord.Type_ ≠ "" ∧
    setDataIntoTarget pigType singleRecord pigA = ({ ID := "9", Moo := mooX }, none) :=
  ⟨rfl, by decide,
    (setDataIntoTarget_SetID_last pigType singleRecord pigA
      (fun id p => ({ p with ID := id }, none)) rfl (by decide) rfl).2.1
      mooX { ID := "1", Moo := mooX } rfl rfl⟩

/-- C13, the claim fails. SetID of the frozen resource does not store the id: the
two records carry the same id 1, the element created for the first keeps the
empty id, the second record matches nothing, and the result has two new elements
for one id. -/
theorem Unmarshal_array_duplicate_ids_two_elements :
    (duplicateRecords.map (fun r => r.ID)) = ["1", "1"] ∧
    Unmarshal exampleJSON2 frozenTypes duplicatePayload
        (.ptr (.slice { elems := [], spare := 0 })) =
      (.ptr (.slice { elems := [{ ID := "", Moo := mooX }, { ID := "", Moo := mooY }],
                      spare := 0 }), none) := by
  decide

/-- The theorem on records with the same id at a collection with one resource
and the payload with two records of id 1. -/
theorem Unmarshal_array_duplicate_ids_witness :
    Unmarshal exampleJSON2 pigTypes duplicatePayload
        (.ptr (.slice { elems := [pigB], spare := 0 })) =
      (.ptr (.slice { elems := [pigB, { ID := "1", Moo := mooY }], spare := 0 }), none) ∧
    SetIDLaw pigType ∧
    ∃ (s1 : Slice Pig) (k : Nat),
      (.ptr (.slice { elems := [pigB, { ID := "1", Moo := mooY }], spare := 0 }) :
        Target Pig Pig) = .ptr (.slice s1) ∧
      k < s1.elems.length ∧ (s1.elems[k]?).map pigType.GetID = some (some "1") :=
  have h := Unmarshal_array_duplicate_ids exampleJSON2 pigTypes duplicatePayload
    (dataDocument { DataObject := none, DataArray := some duplicateRecords })
    { DataObject := none, DataArray := some duplicateRecords } duplicateRecords
    { elems := [pigB], spare := 0 }
    (.ptr (.slice { elems := [pigB, { ID := "1", Moo := mooY }], spare := 0 }))
    [] [] [] (attrRecord "manbearpigs" "1" mooX) (attrRecord "manbearpigs" "1" mooY)
    pigType_SetIDLaw rfl rfl rfl rfl rfl rfl (by decide)
  ⟨by decide, pigType_SetIDLaw,
    h.elim fun s1 hs1 => hs1.elim fun k hk => ⟨s1, k, hk.1, hk.2.2.2.1, hk.2.2.2.2.2.1⟩⟩

/-- C15, the claim fails. The payload is a JSON object without a data member
whose meta member is a number; the JSON library rejects it for the Document type
and Unmarshal returns that error, not the message on the missing data. -/
theorem Unmarshal_no_data_type_error :
    Unmarshal exampleJSON2 pigTypes metaPayload (.ptr (.obj pigA)) =
      (.ptr (.obj pigA),
        some ("json: cannot unmarshal number into Go struct field Document.meta of type "
          ++ "map[string]interface \x7b\x7d")) ∧
    ("json: cannot unmarshal number into Go struct field Document.meta of type "
        ++ "map[string]interface \x7b\x7d" : GoError) ≠
      "Source JSON is empty and does not satisfy the JSONAPI specification!" := by
  decide

/-- The theorem on documents without data at the payload of the test. -/
theorem Unmarshal_no_data_witness :
    exampleJSON2.unmarshalDocument noDataPayload = .ok emptyDocument ∧
    Unmarshal exampleJSON2 pigTypes noDataPayload (.ptr (.obj pigA)) =
      (.ptr (.obj pigA),
        some "Source JSON is empty and does not satisfy the JSONAPI specification!") :=
  ⟨rfl, Unmarshal_no_data exampleJSON2 pigTypes noDataPayload emptyDocument (.obj pigA) rfl rfl⟩

/-- The theorem on targets without SetID at FisherBoy and at a slice of it. -/
theorem Unmarshal_single_object_no_SetID_witness :
    fisherTypes.T.SetID = none ∧ fisherTypes.S.SetID = none ∧
    Unmarshal exampleJSON fisherTypes singlePayload (.ptr (.obj pigA)) =
      (.ptr (.obj pigA), some ErrInterface) ∧
    Unmarshal exampleJSON fisherTypes singlePayload
        (.ptr (.slice { elems := [pigA], spare := 0 })) =
      (.ptr (.slice { elems := [pigA], spare := 0 }), some ErrInterface) :=
  have h := Unmarshal_single_object_no_SetID exampleJSON fisherTypes singlePayload
    (dataDocument { DataObject := some singleRecord, DataArray := none })
    { DataObject := some singleRecord, DataArray := none } singleRecord rfl rfl rfl
  ⟨rfl, rfl, h.1 rfl pigA, h.2 rfl { elems := [pigA], spare := 0 }⟩

/-- The theorem on parser errors at the truncated payload of the test. -/
theorem Unmarshal_parse_error_witness :
    exampleJSON2.unmarshalDocument truncatedPayload = .error "unexpected end of JSON input" ∧
    Unmarshal exampleJSON2 fisherTypes truncatedPayload (.ptr (.obj pigA)) =
      (.ptr (.obj pigA), some "unexpected end of JSON input") :=
  ⟨rfl, Unmarshal_parse_error exampleJSON2 fisherTypes truncatedPayload
    "unexpected end of JSON input" (.obj pigA) rfl⟩

/-- C18, the claim fails. The Error has an empty ID and the id member of its
encoding is the empty string, not a generated identifier. -/
theorem Error_encoding_empty_id :
    emptyError.ID = "" ∧ emptyError.encodedID = "" :=
  ⟨rfl, rfl⟩

/-- The theorem on GetID and the encoded id at an Error without and an Error with
an identifier. -/
theorem Error_GetID_and_encoding_witness :
    emptyError.ID = "" ∧ namedError.ID ≠ "" ∧
    emptyError.GetID "0YyFzFopNazYUJu5JTBrPo" = "0YyFzFopNazYUJu5JTBrPo" ∧
    namedError.GetID "0YyFzFopNazYUJu5JTBrPo" = "e1" ∧ namedError.encodedID = "e1" :=
  ⟨rfl, by decide,
    ((Error_GetID_and_encoding "0YyFzFopNazYUJu5JTBrPo" emptyError).1 rfl).1,
    ((Error_GetID_and_encoding "0YyFzFopNazYUJu5JTBrPo" namedError).2 (by decide)).1,
    ((Error_GetID_and_encoding "0YyFzFopNazYUJu5JTBrPo" namedError).2 (by decide)).2⟩

/-- The theorem on the empty array at a populated slice of FisherBoy. -/
theorem Unmarshal_empty_array_witness :
    DataContainer.UnmarshalJSON exampleJSON2 { DataObject := none, DataArray := none }
        [0x5b, 0x5d] = ({ DataObject := none, DataArray := some [] }, none) ∧
    Unmarshal exampleJSON2 fisherTypes emptyArrayPayload
        (.ptr (.slice { elems := [pigA, pigB], spare := 3 })) =
      (.ptr (.slice { elems := [pigA, pigB], spare := 3 }), none) :=
  ⟨rfl,
    (Unmarshal_empty_array exampleJSON2 fisherTypes emptyArrayPayload
      (dataDocument { DataObject := none, DataArray := some [] })
      { DataObject := none, DataArray := some [] } { elems := [pigA, pigB], spare := 3 }
      rfl rfl rfl rfl).2.1⟩

/-- C20, the claim fails. SetID of the echo resource makes GetID return the id
and its attribute decoding is deterministic and idempotent, the payload has one
record, and Unmarshal succeeds twice; but the second call decodes into the
element that now has the id 1, and the collection differs from the result of the
first call. -/
theorem Unmarshal_array_twice_differs :
    SetIDLaw echoType ∧
    (∀ (attrs : Bytes) (p : Pig),
      echoType.jsonUnmarshal attrs (echoType.jsonUnmarshal attrs p).1 =
        echoType.jsonUnmarshal attrs p) ∧
    (oneRecords.map (fun r => r.ID)).Nodup ∧
    Unmarshal exampleJSON2 echoTypes onePayload (.ptr (.slice { elems := [], spare := 0 })) =
      (.ptr (.slice { elems := [{ ID := "1", Moo := mooX }], spare := 0 }), none) ∧
    Unmarshal exampleJSON2 echoTypes onePayload
        (.ptr (.slice { elems := [{ ID := "1", Moo := mooX }], spare := 0 })) =
      (.ptr (.slice { elems := [{ ID := "1", Moo := mooX ++ [0x31] }], spare := 0 }), none) ∧
    ([{ ID := "1", Moo := mooX ++ [0x31] }] : List Pig) ≠ [{ ID := "1", Moo := mooX }] := by
  refine ⟨?_, ?_, by decide, by decide, by decide, by decide⟩
  · intro f hf id a a1 h
    have hf1 : f = fun id p => ({ p with ID := id }, none) := by
      have := hf.symm
      simpa [echoType] using this
    subst hf1
    simp only [Prod.mk.injEq, and_true] at h
    subst h
    rfl
  · intro attrs p
    by_cases hat : attrs = []
    · simp [echoType, hat]
    · simp [echoType, hat]

/-- The theorem on decoding twice at Manbearpig and the payload with the ids 1
and the empty id. -/
theorem Unmarshal_array_twice_witness :
    SetIDLaw pigType ∧ DecodeIdempotent pigType ∧
    (distinctRecords.map (fun r => r.ID)).Nodup ∧
    Unmarshal exampleJSON pigTypes distinctPayload
        (.ptr (.slice { elems := [pigB], spare := 0 })) =
      (.ptr (.slice { elems := [pigB, { ID := "1", Moo := mooX }, { ID := "", Moo := mooY }],
                      spare := 0 }), none) ∧
    Unmarshal exampleJSON pigTypes distinctPayload
        (.ptr (.slice { elems := [pigB, { ID := "1", Moo := mooX }, { ID := "", Moo := mooY }],
                        spare := 0 })) =
      (.ptr (.slice { elems := [pigB, { ID := "1", Moo := mooX }, { ID := "", Moo := mooY }],
                      spare := 0 }), none) :=
  ⟨pigType_SetIDLaw, pigType_DecodeIdempotent, by decide, by decide,
    Unmarshal_array_twice exampleJSON pigTypes distinctPayload
      (dataDocument { DataObject := none, DataArray := some distinctRecords })
      { DataObject := none, DataArray := some distinctRecords } distinctRecords
      { elems := [pigB], spare := 0 } _ pigType_SetIDLaw pigType_DecodeIdempotent
      rfl rfl rfl rfl (by decide) (by decide)⟩

end jsonapi
